import Mathlib

/-!
Verification development for the ReceiptReader field-extraction engine
(`excel_exporter.py`).  The Python source is shallowly embedded: each Python
function becomes a Lean definition operating on `String` / `List Char`;
the regular expressions used by the source are hand-compiled into explicit
character-level matchers that reproduce the leftmost-match backtracking
semantics of Python's `re` module for exactly the patterns the source uses.

Modelling conventions:
* Monetary floats: every number the engine parses has the shape `d+[.,]dd`,
  so amounts are embedded exactly as natural numbers of cents
  (`"12,50"` becomes `1250`).  The cash cap `max_cash + 0.01` becomes
  `maxCash + 1` cent.  Python computes with IEEE doubles, which are
  order-isomorphic to the exact decimal values on these inputs.
* `datetime.now()` (read in the date fallback of `extract_info`) is made
  explicit: `extract_info` receives the formatted current date as the
  `today` argument.
* Python `str.upper` / `str.isalpha` / `\w` / `\s` are modelled on their
  ASCII fragments; all receipt keywords and claim inputs are ASCII.
-/

namespace ReceiptReader

/-- The two supported locales, as produced by `detect_language`. -/
inductive Lang where
  | IT : Lang
  | EN : Lang
deriving DecidableEq

/-- ASCII whitespace, the fragment of Python's `\s` and `str.strip` that
receipt lines use. -/
def isSpaceChar (c : Char) : Bool :=
  c = ' ' || c = '\t' || c = '\n' || c = '\r' || c = '\x0b' || c = '\x0c'

/-- ASCII fragment of Python's `\w`: letters, digits and underscore. -/
def isWordChar (c : Char) : Bool :=
  c.isAlphanum || c = '_'

/-- ASCII uppercase letter, Python's `[A-Z]`. -/
def isUpperAZ (c : Char) : Bool :=
  'A' ≤ c && c ≤ 'Z'

/-- Numeric value of a digit character. -/
def dval (c : Char) : Nat :=
  c.toNat - 48

/-- The digit character for `n % 10`. -/
def digitChar (n : Nat) : Char :=
  Char.ofNat (48 + n % 10)

/-- Drop ASCII whitespace from both ends of a character list
(Python `str.strip`). -/
def stripChars (l : List Char) : List Char :=
  ((l.dropWhile isSpaceChar).reverse.dropWhile isSpaceChar).reverse

/-- Python `str.strip` on a `String`. -/
def pyStrip (s : String) : String :=
  ⟨stripChars s.data⟩

/-- Python `str.upper` (ASCII fragment). -/
def pyUpper (s : String) : String :=
  ⟨s.data.map Char.toUpper⟩

/-- Substring test on character lists: does `needle` occur contiguously in
`hay`?  This is Python's `needle in hay`. -/
def containsSubL (hay needle : List Char) : Bool :=
  match hay with
  | [] => needle.isEmpty
  | _ :: t => needle.isPrefixOf hay || containsSubL t needle

/-- Python's `needle in hay` on strings. -/
def strContains (hay needle : String) : Bool :=
  containsSubL hay.data needle.data

/-- Python's `c in hay` for a single character. -/
def strHasChar (s : String) (c : Char) : Bool :=
  s.data.contains c

/-- Italian keyword list of `detect_language` (source lines 17). -/
def it_keywords : List String :=
  ["TOTALE", "SCONTRINO", "P.IVA", "EURO", "IMPORTO", "CASSA", "SERVIZIO",
   "COPERTO", "VIA ", "PIAZZA "]

/-- English keyword list of `detect_language` (source line 19). -/
def en_keywords : List String :=
  ["TOTAL", "RECEIPT", "TAX", "TIPS", "GRATUITY", "CHANGE", "CASH",
   "SUBTOTAL", "AVE", "BLVD", "STREET"]

/-- Number of keywords from `kws` occurring in the stripped uppercased line
(each keyword counts once per line, as in the source loops). -/
def keywordScore (kws : List String) (line : String) : Nat :=
  (kws.filter (fun kw => strContains (pyUpper (pyStrip line)) kw)).length

/-- `detect_language` (source lines 8-30): counts Italian and English keyword
hits over all lines; English wins only on a strictly greater score. -/
def detect_language (text_lines : List String) : Lang :=
  let it_score := (text_lines.map (keywordScore it_keywords)).sum
  let en_score := (text_lines.map (keywordScore en_keywords)).sum
  if en_score > it_score then Lang.EN else Lang.IT

/-- The structured record assembled by `extract_info`. -/
structure Record where
  filename : String
  vendor : String
  location : String
  date : String
  total : String
  currency : String
deriving DecidableEq

/-! ### Numeric extraction (`get_floats`, source lines 101-113)

The source regexes are
IT: `(\d+[\.,]\d{2})(?!["\d\.,/])` and EN: `[\$]?\s*(\d+\.\d{2})(?!["\d\.,/])`,
scanned with `re.findall` (leftmost, non-overlapping).  Because `\d+` is
greedy and the separator class contains no digit, a match is exactly: a
maximal digit run, a separator, two digits, and a negative lookahead.
The optional `[\$]?\s*` prefix of the EN pattern only widens the span of a
match leftwards (the captured group is unchanged), so it does not affect
the list of captured groups and is not modelled. -/

/-- Split a character list into its maximal digit prefix and the rest. -/
def splitDigits : List Char → List Char × List Char
  | [] => ([], [])
  | c :: cs =>
    if c.isDigit then
      let p := splitDigits cs
      (c :: p.1, p.2)
    else ([], c :: cs)

/-- Value of a digit list read in base 10. -/
def digitsToNat (l : List Char) : Nat :=
  l.foldl (fun acc c => 10 * acc + dval c) 0

/-- The negative lookahead `(?!["\d\.,/])` of the amount regexes. -/
def lookOk : List Char → Bool
  | [] => true
  | c :: _ => !(c = '"' || c.isDigit || c = '.' || c = ',' || c = '/')

/-- Try to match the amount regex at the head of `l`.  On success returns the
value in cents together with the unconsumed suffix (scanning resumes after
the two fraction digits, as `re.findall` does). -/
def numAttempt (sep : Char → Bool) (l : List Char) : Option (Nat × List Char) :=
  match splitDigits l with
  | ([], _) => none
  | (d :: ds, s :: d1 :: d2 :: rest) =>
    if sep s && d1.isDigit && d2.isDigit && lookOk rest then
      some (digitsToNat (d :: ds) * 100 + dval d1 * 10 + dval d2, rest)
    else none
  | (_ :: _, _) => none

/-- Scanner for `re.findall` with the amount regex.  The second argument is
the number of still-to-skip positions lying inside the previous match
(matches are non-overlapping, so scanning resumes after a match's two
fraction digits). -/
def findNumsGo (sep : Char → Bool) : List Char → Nat → List Nat
  | [], _ => []
  | _ :: cs, Nat.succ k => findNumsGo sep cs k
  | c :: cs, 0 =>
    match numAttempt sep (c :: cs) with
    | some (v, r) => v :: findNumsGo sep cs ((c :: cs).length - r.length - 1)
    | none => findNumsGo sep cs 0

/-- All captured amounts in a character list, in order, non-overlapping,
as values in cents (`re.findall` with the amount regex). -/
def findNums (sep : Char → Bool) (l : List Char) : List Nat :=
  findNumsGo sep l 0

/-- The decimal-separator class of the amount regex: `[\.,]` for IT,
`\.` for EN. -/
def numSep (lang : Lang) (c : Char) : Bool :=
  match lang with
  | Lang.IT => c = '.' || c = ','
  | Lang.EN => c = '.'

/-- `get_floats` (source lines 102-113): no amounts from lines containing a
percent sign; amounts matched by the locale regex, excluding integral values
strictly between 1900 and 2100 (years). -/
def get_floats (lang : Lang) (txt : String) : List Nat :=
  if strHasChar txt '%' then []
  else
    (findNums (numSep lang) txt.data).filter
      (fun v => !(v % 100 = 0 && 190000 < v && v < 210000))

/-! ### Date patterns (source lines 151-158)

IT: `\b(\d{2}\s*[/ -]\s*\d{2}\s*[/ -]\s*\d{2,4})\b`
EN: `\b(\d{1,2}\s*[/ -]\s*\d{1,2}\s*[/ -]\s*\d{4})` (no trailing boundary),
    `\b(\d{1,2}\s*[/ -]\s*\d{1,2}\s*[/ -]\s*\d{2})\b`,
    `(?i)(Jan|…|Dec)\s*(\d{1,2})[\s\.\,\']*(\d{2,4})`.
Each is compiled to a matcher that, given the suffix starting at a search
position, returns the matched token (the captured group, which covers the
whole match for these patterns; for the month pattern, group 0). -/

/-- Word-boundary test for a zero-width `\b` standing before the suffix `r`. -/
def wordBoundary (r : List Char) : Bool :=
  match r with
  | [] => true
  | c :: _ => !isWordChar c

/-- Greedy candidate splits of `\d{1,2}` at the head of a list, longest
first, as Python's backtracking tries them. -/
def d12Splits : List Char → List (List Char × List Char)
  | [] => []
  | [a] => if a.isDigit then [([a], [])] else []
  | a :: b :: r =>
    if a.isDigit && b.isDigit then [([a, b], r), ([a], b :: r)]
    else if a.isDigit then [([a], b :: r)] else []

/-- Exactly four digits at the head (`\d{4}` with nothing after it in the
pattern). -/
def take4Digits : List Char → Option (List Char × List Char)
  | a :: b :: c :: d :: r =>
    if a.isDigit && b.isDigit && c.isDigit && d.isDigit then
      some ([a, b, c, d], r)
    else none
  | _ => none

/-- Consume `\s*[/ -]` (any whitespace, then a slash or dash): returns the
consumed whitespace, the separator and the rest. -/
def sepSplit (l : List Char) : Option (List Char × Char × List Char) :=
  match List.span isSpaceChar l with
  | (w, s :: r) => if s = '/' || s = '-' then some (w, s, r) else none
  | (_, []) => none

/-- Consume `\s*\d{2}` : whitespace, then exactly two digit characters. -/
def ws2Digits (l : List Char) : Option (List Char × Char × Char × List Char) :=
  match List.span isSpaceChar l with
  | (w, a :: b :: r) => if a.isDigit && b.isDigit then some (w, a, b, r) else none
  | (_, _) => none

/-- Matcher for the IT pattern at one search position (`prevWord` says
whether the previous character is a word character, for the leading `\b`).
Returns the captured token. -/
def itDateCore (prevWord : Bool) (cs : List Char) : Option (List Char) :=
  if prevWord then none else
  match cs with
  | a :: b :: r1 =>
    if a.isDigit && b.isDigit then
      match sepSplit r1 with
      | some (w1, s1, r2) =>
        match ws2Digits r2 with
        | some (w2, c1, c2, r3) =>
          match sepSplit r3 with
          | some (w3, s2, r4) =>
            match List.span isSpaceChar r4 with
            | (w4, r5) =>
              match List.span Char.isDigit r5 with
              | (ys, r6) =>
                if 2 ≤ ys.length && ys.length ≤ 4 && wordBoundary r6 then
                  some ([a, b] ++ w1 ++ s1 :: w2 ++ c1 :: c2 :: w3 ++ s2 :: w4 ++ ys)
                else none
          | none => none
        | none => none
      | none => none
    else none
  | _ => none

/-- Matcher for the EN numeric pattern with 4-digit year at one position
(`\b(\d{1,2}\s*[/ -]\s*\d{1,2}\s*[/ -]\s*\d{4})`, no trailing boundary). -/
def en1Core (prevWord : Bool) (cs : List Char) : Option (List Char) :=
  if prevWord then none else
  (d12Splits cs).findSome? fun p1 =>
    match sepSplit p1.2 with
    | some (w1, s1, r2) =>
      match List.span isSpaceChar r2 with
      | (w2, r3) =>
        (d12Splits r3).findSome? fun p2 =>
          match sepSplit p2.2 with
          | some (w3, s2, r4) =>
            match List.span isSpaceChar r4 with
            | (w4, r5) =>
              match take4Digits r5 with
              | some (ys, _) =>
                some (p1.1 ++ w1 ++ s1 :: w2 ++ p2.1 ++ w3 ++ s2 :: w4 ++ ys)
              | none => none
          | none => none
    | none => none

/-- Matcher for the EN numeric pattern with 2-digit year at one position
(`\b(\d{1,2}\s*[/ -]\s*\d{1,2}\s*[/ -]\s*\d{2})\b`). -/
def en2Core (prevWord : Bool) (cs : List Char) : Option (List Char) :=
  if prevWord then none else
  (d12Splits cs).findSome? fun p1 =>
    match sepSplit p1.2 with
    | some (w1, s1, r2) =>
      match List.span isSpaceChar r2 with
      | (w2, r3) =>
        (d12Splits r3).findSome? fun p2 =>
          match sepSplit p2.2 with
          | some (w3, s2, r4) =>
            match ws2Digits r4 with
            | some (w4, y1, y2, r5) =>
              if wordBoundary r5 then
                some (p1.1 ++ w1 ++ s1 :: w2 ++ p2.1 ++ w3 ++ s2 :: w4 ++ [y1, y2])
              else none
            | none => none
          | none => none
    | none => none

/-- Lowercased three-letter month abbreviations, the alternation
`(Jan|Feb|Mar|Apr|May|Jun|Jul|Aug|Sep|Oct|Nov|Dec)` under `(?i)`. -/
def monthAbbrList : List (List Char) :=
  [['j','a','n'], ['f','e','b'], ['m','a','r'], ['a','p','r'],
   ['m','a','y'], ['j','u','n'], ['j','u','l'], ['a','u','g'],
   ['s','e','p'], ['o','c','t'], ['n','o','v'], ['d','e','c']]

/-- Case-insensitive month-abbreviation test for three characters. -/
def isMonthAbbr (a b c : Char) : Bool :=
  monthAbbrList.contains [a.toLower, b.toLower, c.toLower]

/-- The separator class `[\s\.\,\']` of the EN month pattern. -/
def monthSepClass (c : Char) : Bool :=
  isSpaceChar c || c = '.' || c = ',' || c = '\''

/-- `\d{2,4}` with nothing following it: greedily takes `min(run, 4)`
digits, requiring at least two. -/
def take2to4Digits (l : List Char) : Option (List Char) :=
  match List.span Char.isDigit l with
  | (ds, _) => if 2 ≤ ds.length then some (ds.take 4) else none

/-- Matcher for the EN month-name pattern at one position (no `\b`);
returns group 0, the whole match. -/
def en3Core (cs : List Char) : Option (List Char) :=
  match cs with
  | a :: b :: c :: r1 =>
    if isMonthAbbr a b c then
      match List.span isSpaceChar r1 with
      | (w1, r2) =>
        (d12Splits r2).findSome? fun p =>
          match List.span monthSepClass p.2 with
          | (w2, r3) =>
            match take2to4Digits r3 with
            | some ys => some (a :: b :: c :: w1 ++ p.1 ++ w2 ++ ys)
            | none => none
    else none
  | _ => none

/-- `re.search` driver: try the core matcher at every position from left to
right, tracking whether the previous character is a word character. -/
def searchCore (core : Bool → List Char → Option (List Char)) :
    Bool → List Char → Option (List Char)
  | prev, [] => core prev []
  | prev, c :: rest =>
    match core prev (c :: rest) with
    | some t => some t
    | none => searchCore core (isWordChar c) rest

/-- The four date patterns of `extract_info`. -/
inductive DatePat where
  | itNum : DatePat
  | enNum4 : DatePat
  | enNum2 : DatePat
  | enMon : DatePat
deriving DecidableEq

/-- The locale-ordered date-pattern lists (source lines 151-158). -/
def datePatterns : Lang → List DatePat
  | Lang.IT => [DatePat.itNum]
  | Lang.EN => [DatePat.enNum4, DatePat.enNum2, DatePat.enMon]

/-- `re.search` of one date pattern over a line, returning the matched
token. -/
def searchPat : DatePat → List Char → Option (List Char)
  | DatePat.itNum, cs => searchCore itDateCore false cs
  | DatePat.enNum4, cs => searchCore en1Core false cs
  | DatePat.enNum2, cs => searchCore en2Core false cs
  | DatePat.enMon, cs => searchCore (fun _ l => en3Core l) false cs

/-- Raw-token extraction (source lines 163-167): the whole match for the
month pattern, otherwise the captured group with space characters removed
(`.replace(" ", "")` removes only spaces). -/
def rawTokenOf (p : DatePat) (line : String) : Option String :=
  match searchPat p line.data with
  | some t =>
    some (if p = DatePat.enMon then ⟨t⟩ else ⟨t.filter (fun c => c ≠ ' ')⟩)
  | none => none

/-- One line's inner pattern loop (source lines 161-169): first pattern in
locale order that matches the line wins. -/
def tryPats (lang : Lang) (line : String) : Option String :=
  (datePatterns lang).findSome? (fun p => rawTokenOf p line)

/-- The full date scan (source lines 160-170): first line with a matching
pattern wins, then scanning stops. -/
def scanRawDate (lang : Lang) (lines : List String) : Option String :=
  lines.findSome? (tryPats lang)

/-- Does any of the locale's date patterns match the raw line?  Used by the
location extractor to skip date-shaped lines (source lines 292-297). -/
def isDateLine (lang : Lang) (line : String) : Bool :=
  (datePatterns lang).any (fun p => (searchPat p line.data).isSome)

/-! ### Total and currency extraction (source lines 179-273) -/

/-- IT/EN total keywords (source lines 199, 204). -/
def total_keywords : Lang → List String
  | Lang.IT => ["TOTALE", "IMPORTO", "PAGAMENTO", "CREDIT", "AMMOUNT"]
  | Lang.EN => ["TOTAL", "BALANCE", "AMOUNT", "DUE", "VISA", "CHARGE", "BILL", "TOTA"]

/-- IT/EN cash keywords (source lines 200, 205). -/
def cash_keywords : Lang → List String
  | Lang.IT => ["CONTANTI", "CONTANTE", "CASH", "VERSAMENTO"]
  | Lang.EN => ["CASH", "TENDER", "PAID"]

/-- IT/EN ignore keywords (source lines 201, 206). -/
def ignore_keywords : Lang → List String
  | Lang.IT => ["SUBTOTALE", "IMPONIBILE", "RESTO"]
  | Lang.EN => ["SUBTOTAL", "SUB TOTAL", "TAX", "CHANGE", "TIP", "GRATUITY"]

/-- Does the uppercased stripped line contain any of the keywords? -/
def anyKw (kws : List String) (upper : String) : Bool :=
  kws.any (fun k => strContains upper k)

/-- Amounts from the five-line window starting at index `i` (source lines
226-229): the current line and the next four, bounds-checked. -/
def windowFloats (lang : Lang) (lines : List String) (i : Nat) : List Nat :=
  ((List.range 5).map fun off =>
    if i + off < lines.length then get_floats lang (lines.getD (i + off) "")
    else []).flatten

/-- Strategy A (source lines 211-229): per line, cash keywords divert the
line's amounts (and the following line's) to the cash pool; ignore-keyword
lines are skipped; total-keyword lines pour the 5-line window into the
explicit pool.  Returns `(explicit_totals, cash_candidates)`. -/
def strategyA (lang : Lang) (lines : List String) : List Nat × List Nat :=
  (List.range lines.length).foldl
    (fun acc i =>
      let line := lines.getD i ""
      let upper := pyUpper (pyStrip line)
      let vals := get_floats lang line
      if anyKw (cash_keywords lang) upper then
        (acc.1, acc.2 ++ vals ++
          (if i + 1 < lines.length then get_floats lang (lines.getD (i + 1) "") else []))
      else if anyKw (ignore_keywords lang) upper then acc
      else if anyKw (total_keywords lang) upper then
        (acc.1 ++ windowFloats lang lines i, acc.2)
      else acc)
    ([], [])

/-- Strategy B (source lines 231-243): scan the last 15 lines; lines with
no amounts are skipped, cash lines feed the cash pool, ignore lines are
dropped, anything else feeds the blind pool.  Returns
`(blind_totals, cash_candidates)`. -/
def strategyB (lang : Lang) (lines : List String) : List Nat × List Nat :=
  (lines.drop (lines.length - 15)).foldl
    (fun acc line =>
      let upper := pyUpper (pyStrip line)
      let vals := get_floats lang line
      if vals.isEmpty then acc
      else if anyKw (cash_keywords lang) upper then (acc.1, acc.2 ++ vals)
      else if anyKw (ignore_keywords lang) upper then acc
      else (acc.1 ++ vals, acc.2))
    ([], [])

/-- Python's `max` over a list of amounts. -/
def listMax? : List Nat → Option Nat
  | [] => none
  | x :: xs =>
    match listMax? xs with
    | none => some x
    | some m => some (Nat.max x m)

/-! #### IEEE-754 binary64 model for the cash cap

The source compares Python floats at line 256: `t <= max_cash + 0.01`,
where `t` and `max_cash` were produced by `float(...)` on strings with two
decimals and `0.01` is a float literal.  A non-negative finite double is
modelled as a dyadic `(m, e)` with value `m * 2 ^ e` (`m = 0`, or
normalised `2 ^ 52 ≤ m < 2 ^ 53`); conversion and addition round to
nearest, ties to even.  Overflow to infinity is not modelled: it would
need an amount token of more than 300 digits. -/

/-- Bit length of `n`, with explicit fuel so the kernel can evaluate it
(`n` itself is always enough fuel). -/
def bitsAux : Nat → Nat → Nat
  | 0, _ => 0
  | fuel + 1, n => if n = 0 then 0 else bitsAux fuel (n / 2) + 1

/-- Number of binary digits of `n` (0 for 0). -/
def bitlen (n : Nat) : Nat :=
  bitsAux n n

/-- Round the positive rational `p / q * 2 ^ t` to 53 significant bits,
nearest, ties to even.  The scale `s` makes the integer quotient at least
54 bits wide, so the dropped low bits plus the division remainder decide
the rounding exactly. -/
def roundPQ (p q : Nat) (t : Int) : Nat × Int :=
  let pb := bitlen p
  let qb := bitlen q
  let s := qb + 55 - pb
  let N := p * 2 ^ s
  let Q := N / q
  let R := N % q
  let k := bitlen Q - 53
  let M := Q / 2 ^ k
  let low := Q % 2 ^ k
  let half := 2 ^ k / 2
  let up := half < low || (low = half && (R ≠ 0 || M % 2 = 1))
  let M2 := if up then M + 1 else M
  if M2 = 2 ^ 53 then (2 ^ 52, t - (s : Int) + (k : Int) + 1)
  else (M2, t - (s : Int) + (k : Int))

/-- Python `float` of a two-decimal token worth `n` cents: the double
nearest to `n / 100`. -/
def dbl100 (n : Nat) : Nat × Int :=
  if n = 0 then (0, 0) else roundPQ n 100 0

/-- IEEE double addition of two non-negative doubles: exact dyadic sum,
then one rounding. -/
def faddPos (x y : Nat × Int) : Nat × Int :=
  let emin := min x.2 y.2
  let a := x.1 * 2 ^ (x.2 - emin).toNat + y.1 * 2 ^ (y.2 - emin).toNat
  roundPQ a 1 emin

/-- Exact `≤` on non-negative doubles. -/
def fleD (x y : Nat × Int) : Bool :=
  let emin := min x.2 y.2
  x.1 * 2 ^ (x.2 - emin).toNat ≤ y.1 * 2 ^ (y.2 - emin).toNat

/-- The source's cap test `t <= max_cash + 0.01` (line 256) on cent
amounts: the doubles for `t`, `max_cash` and `0.01` are built and compared
exactly as CPython does.  E.g. for `max_cash = 2.01` the right-hand side
is `2.0199999999999996`, so `t = 2.02` fails the test. -/
def capLE (t mc : Nat) : Bool :=
  fleD (dbl100 t) (faddPos (dbl100 mc) (dbl100 1))

/-- Final candidate logic (source lines 245-266), on the explicit pool `E`,
blind pool `B` and cash pool `C`; the cash cap is the float comparison
`t <= max_cash + 0.01`. -/
def resolveTotal (E B C : List Nat) : Option Nat :=
  let maxCash := listMax? C
  if !E.isEmpty then listMax? E
  else if !B.isEmpty then
    match maxCash with
    | some mc =>
      let valid := B.filter (fun t => capLE t mc)
      if !valid.isEmpty then listMax? valid
      else if !B.isEmpty then listMax? B
      else maxCash
    | none => listMax? B
  else maxCash

/-- Digit characters of a natural number, most significant first
(fuel-based so that the kernel can evaluate it). -/
def natDigitsAux : Nat → Nat → List Char
  | 0, _ => []
  | fuel + 1, n =>
    if n < 10 then [digitChar n]
    else natDigitsAux fuel (n / 10) ++ [digitChar (n % 10)]

/-- Decimal rendering of a natural number. -/
def natDigits (n : Nat) : List Char :=
  natDigitsAux (n + 1) n

/-- Two zero-padded digit characters of `n % 100`. -/
def pad2Chars (n : Nat) : List Char :=
  [digitChar (n % 100 / 10), digitChar n]

/-- Python's `f"{v:.2f}"` on an exact cent amount. -/
def fmt2cents (v : Nat) : String :=
  ⟨natDigits (v / 100) ++ '.' :: pad2Chars (v % 100)⟩

/-- The `total` field (source lines 245-271): the resolved value formatted
to two decimals if strictly positive, otherwise the sentinel. -/
def totalFieldOf (lang : Lang) (lines : List String) : String :=
  let E := (strategyA lang lines).1
  let B := (strategyB lang lines).1
  let C := (strategyA lang lines).2 ++ (strategyB lang lines).2
  match resolveTotal E B C with
  | some v => if 0 < v then fmt2cents v else "null"
  | none => "null"

/-- A Euro marker: `"€" in line or "EUR" in line.upper()` (source line 187). -/
def hasEuroMarker (line : String) : Bool :=
  strHasChar line '€' || strContains (pyUpper line) "EUR"

/-- A Dollar marker: `"$" in line or "USD" in line.upper()` (source line 190). -/
def hasDollarMarker (line : String) : Bool :=
  strHasChar line '$' || strContains (pyUpper line) "USD"

/-- One line of the currency scan (source lines 186-192): Euro markers are
checked before Dollar markers within the same line. -/
def lineCurrency (line : String) : Option String :=
  if hasEuroMarker line then some "EUR"
  else if hasDollarMarker line then some "USD"
  else none

/-- The `currency` field (source lines 185-195): first line with a marker
decides; otherwise the locale default. -/
def currencyFieldOf (lang : Lang) (lines : List String) : String :=
  match lines.findSome? lineCurrency with
  | some c => c
  | none => match lang with | Lang.IT => "EUR" | Lang.EN => "USD"

/-! ### Vendor extraction (source lines 115-144) -/

/-- IT/EN corporate suffixes (source lines 120, 123). -/
def suffixesOf : Lang → List String
  | Lang.IT => ["S.P.A", "S.R.L", "SRL", "SPA", "S.N.C", "SNC"]
  | Lang.EN => ["INC", "LTD", "LLC", "CORP", "INC.", "LLC."]

/-- IT/EN generic header keywords skipped by the vendor fallback
(source lines 121, 124). -/
def skipKeywordsOf : Lang → List String
  | Lang.IT => ["DOCUMENTO", "COMMERCIALE", "SCONTRINO", "CLIENTE", "COPIA",
                "RT", "CASSA", "PAGAMENTO"]
  | Lang.EN => ["RECEIPT", "GUEST", "CHECK", "TABLE", "SERVER", "ORDER",
                "WELCOME", "COPY", "MERCHANT"]

/-- Vendor pass 1 on one line (source lines 128-134): stripped, at least
three characters, uppercase contains a corporate suffix. -/
def vendorPass1Line (lang : Lang) (line : String) : Option String :=
  let clean := pyStrip line
  if 3 ≤ clean.length && anyKw (suffixesOf lang) (pyUpper clean) then some clean
  else none

/-- Vendor pass 2 on one line (source lines 137-144): stripped, at least
three characters, contains a letter, and no generic header keyword. -/
def vendorPass2Line (lang : Lang) (line : String) : Option String :=
  let clean := pyStrip line
  if 3 ≤ clean.length && clean.data.any Char.isAlpha &&
      !anyKw (skipKeywordsOf lang) (pyUpper clean) then some clean
  else none

/-- The `vendor` field (source lines 115-144): pass 1 over the first eight
lines, then the fallback pass over every line. -/
def vendorOf (lang : Lang) (lines : List String) : String :=
  match (lines.take 8).findSome? (vendorPass1Line lang) with
  | some v => v
  | none =>
    match lines.findSome? (vendorPass2Line lang) with
    | some v => v
    | none => "null"

/-! ### Date normalization (`normalize_date`, source lines 32-78)

The repair steps and `datetime.strptime` are embedded exactly:
`strptime` tokens use CPython's field regexes
(`%d` = `3[01]|[12]\d|0[1-9]|[1-9]`, `%m` = `1[0-2]|0[1-9]|[1-9]`,
`%Y` = `\d{4}`, `%y` = `\d{2}` with the 69-rule, `%b`/`%B` = case-insensitive
month-name alternations, format whitespace = `\s+`), matched left-to-right
with backtracking and requiring full consumption, followed by calendar
validation exactly as `datetime` construction performs it. -/

/-- Step 1 of the repair: `re.sub(r"'(\d{2})\b", r"20\1", s)`.  On a match
the apostrophe is replaced by `20` and scanning continues at the two digits;
since the pattern starts with an apostrophe, digits cannot open a new match,
so continuing at the digits is the same as resuming after the match. -/
def subAposFix : List Char → List Char
  | [] => []
  | c :: cs =>
    if c = '\'' then
      match cs with
      | a :: b :: rest =>
        if a.isDigit && b.isDigit && wordBoundary rest then
          '2' :: '0' :: subAposFix cs
        else c :: subAposFix cs
      | _ => c :: subAposFix cs
    else c :: subAposFix cs

/-- Step 2 of the repair: `.replace("'", "20")`. -/
def replaceApos : List Char → List Char
  | [] => []
  | c :: cs => if c = '\'' then '2' :: '0' :: replaceApos cs else c :: replaceApos cs

/-- Step 3 of the repair: `re.sub(r'[^\w\s]', ' ', s)` on one character. -/
def cleanNonWord (c : Char) : Char :=
  if isWordChar c || isSpaceChar c then c else ' '

/-- Worker for step 4: each whitespace run becomes a single space
(`re.sub(r'\s+', ' ', s)`); the flag records an open run. -/
def collapseWsGo : List Char → Bool → List Char
  | [], _ => []
  | c :: cs, inRun =>
    if isSpaceChar c then
      if inRun then collapseWsGo cs true else ' ' :: collapseWsGo cs true
    else c :: collapseWsGo cs false

/-- Step 4 of the repair, before the final strip. -/
def collapseWs (l : List Char) : List Char :=
  collapseWsGo l false

/-- The whole repair pipeline of `normalize_date` (source lines 41-44). -/
def cleanDateStr (l : List Char) : List Char :=
  stripChars (collapseWs ((replaceApos (subAposFix l)).map cleanNonWord))

/-- `strptime` format fields appearing in the source's format list. -/
inductive FTok where
  | D : FTok
  | M : FTok
  | Y4 : FTok
  | Y2 : FTok
  | Bmon : FTok
  | Bfull : FTok
  | WS : FTok
deriving DecidableEq

/-- Alternatives of `%d` (`3[01]|[12]\d|0[1-9]|[1-9]`), in regex order. -/
def dayAlts : List Char → List (Nat × List Char)
  | [] => []
  | [a] => if a.isDigit && a ≠ '0' then [(dval a, [])] else []
  | a :: b :: r =>
    (if a = '3' && (b = '0' || b = '1') then [(30 + dval b, r)] else []) ++
    (if (a = '1' || a = '2') && b.isDigit then [(10 * dval a + dval b, r)] else []) ++
    (if a = '0' && b.isDigit && b ≠ '0' then [(dval b, r)] else []) ++
    (if a.isDigit && a ≠ '0' then [(dval a, b :: r)] else [])

/-- Alternatives of `%m` (`1[0-2]|0[1-9]|[1-9]`), in regex order. -/
def monthAlts : List Char → List (Nat × List Char)
  | [] => []
  | [a] => if a.isDigit && a ≠ '0' then [(dval a, [])] else []
  | a :: b :: r =>
    (if a = '1' && (b = '0' || b = '1' || b = '2') then [(10 + dval b, r)] else []) ++
    (if a = '0' && b.isDigit && b ≠ '0' then [(dval b, r)] else []) ++
    (if a.isDigit && a ≠ '0' then [(dval a, b :: r)] else [])

/-- `%Y`: exactly four digits. -/
def y4Alts : List Char → List (Nat × List Char)
  | a :: b :: c :: d :: r =>
    if a.isDigit && b.isDigit && c.isDigit && d.isDigit then
      [(1000 * dval a + 100 * dval b + 10 * dval c + dval d, r)]
    else []
  | _ => []

/-- `%y`: exactly two digits, expanded by CPython's century rule
(00-68 is 20xx, 69-99 is 19xx). -/
def y2Alts : List Char → List (Nat × List Char)
  | a :: b :: r =>
    if a.isDigit && b.isDigit then
      [((if 10 * dval a + dval b ≤ 68 then 2000 else 1900) + 10 * dval a + dval b, r)]
    else []
  | _ => []

/-- Whitespace in a `strptime` format string matches `\s+`. -/
def wsAlts (l : List Char) : List (Nat × List Char) :=
  match List.span isSpaceChar l with
  | ([], _) => []
  | (_ :: _, r) => [(0, r)]

/-- `%b`: a case-insensitive three-letter month abbreviation. -/
def bmonAlts : List Char → List (Nat × List Char)
  | a :: b :: c :: r =>
    match monthAbbrList.findIdx? (fun n => n = [a.toLower, b.toLower, c.toLower]) with
    | some i => [(i + 1, r)]
    | none => []
  | _ => []

/-- Lowercased full month names for `%B`. -/
def monthFullList : List (List Char) :=
  (["january", "february", "march", "april", "may", "june", "july",
    "august", "september", "october", "november", "december"] :
      List String).map String.data

/-- `%B`: a case-insensitive full month name (no name is a prefix of
another, so at most one alternative matches). -/
def bfullAlts (l : List Char) : List (Nat × List Char) :=
  match (List.range 12).findSome? (fun i =>
    if (monthFullList.getD i []).isPrefixOf (l.map Char.toLower) then
      some (i + 1, l.drop (monthFullList.getD i []).length)
    else none) with
  | some p => [p]
  | none => []

/-- Candidate parses of one format field at the head of the input, in the
order Python's backtracking tries them. -/
def tokAlts : FTok → List Char → List (Nat × List Char)
  | FTok.D, l => dayAlts l
  | FTok.M, l => monthAlts l
  | FTok.Y4, l => y4Alts l
  | FTok.Y2, l => y2Alts l
  | FTok.Bmon, l => bmonAlts l
  | FTok.Bfull, l => bfullAlts l
  | FTok.WS, l => wsAlts l

/-- Parsed day-month-year triple of one `strptime` call. -/
structure DMY where
  d : Nat
  m : Nat
  y : Nat
deriving DecidableEq

/-- Store a parsed field value. -/
def setTok (t : FTok) (v : Nat) (acc : DMY) : DMY :=
  match t with
  | FTok.D => { acc with d := v }
  | FTok.M => { acc with m := v }
  | FTok.Bmon => { acc with m := v }
  | FTok.Bfull => { acc with m := v }
  | FTok.Y4 => { acc with y := v }
  | FTok.Y2 => { acc with y := v }
  | FTok.WS => acc

/-- Depth-first matching of a format against the whole input (Python
`strptime` raises on unconverted trailing data, hence the `[], []` case). -/
def runFmt : List FTok → List Char → DMY → Option DMY
  | [], [], acc => some acc
  | [], _ :: _, _ => none
  | t :: ts, cs, acc =>
    (tokAlts t cs).findSome? (fun p => runFmt ts p.2 (setTok t p.1 acc))

/-- The source's format list (lines 47-53), in order:
`%d %m %Y`, `%d %m %y`, `%m %d %Y`, `%m %d %y`, `%b %d %Y`, `%b %d %y`,
`%B %d %Y`, `%B %d %y`, `%b%d %Y`, `%b%d%Y`. -/
def fmtList : List (List FTok) :=
  [[FTok.D, FTok.WS, FTok.M, FTok.WS, FTok.Y4],
   [FTok.D, FTok.WS, FTok.M, FTok.WS, FTok.Y2],
   [FTok.M, FTok.WS, FTok.D, FTok.WS, FTok.Y4],
   [FTok.M, FTok.WS, FTok.D, FTok.WS, FTok.Y2],
   [FTok.Bmon, FTok.WS, FTok.D, FTok.WS, FTok.Y4],
   [FTok.Bmon, FTok.WS, FTok.D, FTok.WS, FTok.Y2],
   [FTok.Bfull, FTok.WS, FTok.D, FTok.WS, FTok.Y4],
   [FTok.Bfull, FTok.WS, FTok.D, FTok.WS, FTok.Y2],
   [FTok.Bmon, FTok.D, FTok.WS, FTok.Y4],
   [FTok.Bmon, FTok.D, FTok.Y4]]

/-- Gregorian leap year, as Python's `datetime` uses. -/
def isLeapYear (y : Nat) : Bool :=
  (y % 4 = 0 && y % 100 ≠ 0) || y % 400 = 0

/-- Days in a month, as Python's `datetime` validates. -/
def daysInMonth (y m : Nat) : Nat :=
  if m = 2 then (if isLeapYear y then 29 else 28)
  else if m = 4 || m = 6 || m = 9 || m = 11 then 30
  else 31

/-- The `datetime(year, month, day)` constructor's validity check. -/
def validDMY (x : DMY) : Bool :=
  1 ≤ x.y && x.y ≤ 9999 && 1 ≤ x.m && x.m ≤ 12 && 1 ≤ x.d &&
    x.d ≤ daysInMonth x.y x.m

/-- The `for fmt in formats: try strptime` loop (source lines 57-62). -/
def strptimeAny (cs : List Char) : Option DMY :=
  fmtList.findSome? (fun f =>
    match runFmt f cs ⟨1, 1, 1900⟩ with
    | some acc => if validDMY acc then some acc else none
    | none => none)

/-- Four zero-padded digit characters of `n` (for `n ≤ 9999`). -/
def pad4Chars (n : Nat) : List Char :=
  [digitChar (n / 1000), digitChar (n / 100), digitChar (n / 10), digitChar n]

/-- `strftime("%d/%m/%Y")` on a parsed date. -/
def formatDMY (d m y : Nat) : List Char :=
  pad2Chars d ++ '/' :: pad2Chars m ++ '/' :: pad4Chars y

/-- The fallback regex `([a-zA-Z]{3})\s*(\d{1,2})\s*(\d{2,4})` at one
search position; returns the three captured groups. -/
def looseCore : List Char → Option (List Char × List Char × List Char)
  | a :: b :: c :: r1 =>
    if a.isAlpha && b.isAlpha && c.isAlpha then
      match List.span isSpaceChar r1 with
      | (_, r2) =>
        (d12Splits r2).findSome? fun p =>
          match List.span isSpaceChar p.2 with
          | (_, r3) =>
            match take2to4Digits r3 with
            | some ys => some ([a, b, c], p.1, ys)
            | none => none
    else none
  | _ => none

/-- `re.search` with the fallback pattern. -/
def searchLoose : List Char → Option (List Char × List Char × List Char)
  | [] => none
  | c :: cs =>
    match looseCore (c :: cs) with
    | some g => some g
    | none => searchLoose cs

/-- The fallback step of `normalize_date` (source lines 68-76): expand a
two-digit year with a literal `20` prefix and re-parse the rebuilt string
with `%b %d %Y`. -/
def looseFallback (cs : List Char) : Option DMY :=
  match searchLoose cs with
  | some (m3, ds, ys) =>
    match runFmt [FTok.Bmon, FTok.WS, FTok.D, FTok.WS, FTok.Y4]
        (m3 ++ ' ' :: ds ++ ' ' :: (if ys.length = 2 then '2' :: '0' :: ys else ys))
        ⟨1, 1, 1900⟩ with
    | some acc => if validDMY acc then some acc else none
    | none => none
  | none => none

/-- `normalize_date` (source lines 32-78).  The `lang` parameter is accepted
and ignored, exactly as in the source. -/
def normalize_date (date_str : String) (lang : Lang) : String :=
  if date_str = "" || date_str = "null" then date_str
  else
    match strptimeAny (cleanDateStr date_str.data) with
    | some x => ⟨formatDMY x.d x.m x.y⟩
    | none =>
      match looseFallback (cleanDateStr date_str.data) with
      | some x => ⟨formatDMY x.d x.m x.y⟩
      | none => date_str

/-! ### Location extraction (source lines 275-333) -/

/-- IT/EN address keywords (source lines 278, 282). -/
def addr_keywordsOf : Lang → List String
  | Lang.IT => ["VIA ", "VIALE ", "PIAZZA ", "CORSO ", "C.SO ", "VICOLO ",
                "LARGO ", "STRADA ", "P.ZZA ", "V. "]
  | Lang.EN => [" AVE", " ST", " BLVD", " BL VD", " RD", " DRIVE", " LANE",
                " HIGHWAY", " PKWY", " WAY"]

/-- The disqualifying tokens (source line 305). -/
def bad_words : List String :=
  ["TEL", "FAX", "TAX", "VAT", "ORDER", "TABLE", "GUEST", "ID", "OP:",
   "CASSA:", "IBAN", "N.CARTA", "CARD", "ACCT"]

/-- `\d{5}\b`: a maximal run of exactly five digits at this position. -/
def fiveDigitsB (l : List Char) : Bool :=
  match List.span Char.isDigit l with
  | (ds, r) => ds.length = 5 && wordBoundary r

/-- IT postal-code pattern `\b\d{5}\b` at one position. -/
def capITCore (prevWord : Bool) (cs : List Char) : Bool :=
  !prevWord && fiveDigitsB cs

/-- EN zip pattern `\b(?:[A-Z]{2}\s*)?\d{5}\b` at one position: the greedy
optional state-code branch first, then the bare five digits. -/
def capENCore (prevWord : Bool) (cs : List Char) : Bool :=
  !prevWord &&
    ((match cs with
      | a :: b :: r =>
        isUpperAZ a && isUpperAZ b && fiveDigitsB (List.span isSpaceChar r).2
      | _ => false) ||
     fiveDigitsB cs)

/-- Tail of the IT province pattern after the optional parenthesis:
`([A-Z]{2})\)?$`. -/
def provITTail : List Char → Bool
  | a :: b :: r =>
    isUpperAZ a && isUpperAZ b &&
      (match r with
       | [] => true
       | [c] => c = ')'
       | _ => false)
  | _ => false

/-- IT province pattern `\s\(?([A-Z]{2})\)?$` at one position. -/
def provITCore (cs : List Char) : Bool :=
  match cs with
  | w :: rest =>
    isSpaceChar w &&
      (match rest with
       | '(' :: r2 => provITTail r2
       | _ => provITTail rest)
  | [] => false

/-- EN state-zip pattern `\b[A-Z]{2}\s+\d{5}` at one position. -/
def provENCore (prevWord : Bool) (cs : List Char) : Bool :=
  !prevWord &&
    (match cs with
     | a :: b :: r =>
       isUpperAZ a && isUpperAZ b &&
         (match List.span isSpaceChar r with
          | (w, r2) => !w.isEmpty && 5 ≤ (List.span Char.isDigit r2).1.length)
     | _ => false)

/-- `re.search` driver for a boolean position matcher. -/
def searchBool (core : Bool → List Char → Bool) : Bool → List Char → Bool
  | prev, [] => core prev []
  | prev, c :: rest => core prev (c :: rest) || searchBool core (isWordChar c) rest

/-- `re.search(cap_pattern, clean)` (source line 301). -/
def capSearch (lang : Lang) (s : String) : Bool :=
  match lang with
  | Lang.IT => searchBool capITCore false s.data
  | Lang.EN => searchBool capENCore false s.data

/-- `re.search(prov_pattern, clean)` (source line 302). -/
def provSearch (lang : Lang) (s : String) : Bool :=
  match lang with
  | Lang.IT => searchBool (fun _ l => provITCore l) false s.data
  | Lang.EN => searchBool provENCore false s.data

/-- The score of one stripped line (source lines 299-306). -/
def scoreOf (lang : Lang) (clean : String) : Int :=
  (if anyKw (addr_keywordsOf lang) (pyUpper clean) then 5 else 0) +
  (if capSearch lang clean then 6 else 0) +
  (if provSearch lang clean then 4 else 0) -
  (if anyKw bad_words (pyUpper clean) then 20 else 0)

/-- A retained candidate line: original index, stripped text, score. -/
structure ScoredLine where
  idx : Nat
  text : String
  score : Int
deriving DecidableEq

/-- A merged-or-standalone location candidate. -/
structure Cand where
  text : String
  score : Int
deriving DecidableEq

/-- The retained score lines (source lines 286-309): date-shaped lines are
skipped, only positive scores survive, in index order (the source's
`sort` by index is the identity on this already-ascending list). -/
def scoredLinesOf (lang : Lang) (lines : List String) : List ScoredLine :=
  (List.range lines.length).filterMap fun i =>
    let line := lines.getD i ""
    if isDateLine lang line then none
    else
      let clean := pyStrip line
      if 0 < scoreOf lang clean then some ⟨i, clean, scoreOf lang clean⟩
      else none

/-- The adjacent-merge walk (source lines 312-329): a candidate merges with
the next exactly when their indices are consecutive, with a 5-point
adjacency bonus, and the walk then advances past both. -/
def mergePass : List ScoredLine → List Cand
  | [] => []
  | [x] => [⟨x.text, x.score⟩]
  | x :: y :: rest =>
    if y.idx = x.idx + 1 then
      ⟨x.text ++ " " ++ y.text, x.score + y.score + 5⟩ :: mergePass rest
    else ⟨x.text, x.score⟩ :: mergePass (y :: rest)

/-- One step of Python's `max(..., key=score)`: replace the best candidate
only on a strictly greater score. -/
def maxStep (acc : Option Cand) (c : Cand) : Option Cand :=
  match acc with
  | none => some c
  | some b => if b.score < c.score then some c else some b

/-- Python's `max(..., key=score)`: keeps the earlier element on ties. -/
def maxByScore? (l : List Cand) : Option Cand :=
  l.foldl maxStep none

/-- The `location` field (source lines 275-333). -/
def locationOf (lang : Lang) (lines : List String) : String :=
  match maxByScore? (mergePass (scoredLinesOf lang lines)) with
  | some c => c.text
  | none => "null"

/-! ### Assembly (`extract_info`, source lines 80-335) -/

/-- The `date` field (source lines 146-177): the first raw token, if any,
normalized; otherwise today's date in parentheses. -/
def dateFieldOf (lang : Lang) (lines : List String) (today : String) : String :=
  match scanRawDate lang lines with
  | some raw => normalize_date raw lang
  | none => "(" ++ today ++ ")"

/-- `extract_info` (source lines 80-335).  `today` stands for the
`datetime.now().strftime("%d/%m/%Y")` value read in the date fallback; it is
passed explicitly to make the clock read visible. -/
def extract_info (text_lines : List String) (filename : String)
    (today : String) : Record :=
  if text_lines.isEmpty then
    ⟨filename, "null", "null", "null", "null", "null"⟩
  else
    let lang := detect_language text_lines
    { filename := filename
      vendor := vendorOf lang text_lines
      location := locationOf lang text_lines
      date := dateFieldOf lang text_lines today
      total := totalFieldOf lang text_lines
      currency := currencyFieldOf lang text_lines }

/-! ### Aggregation and export rows (`save_all_to_excel`, source lines
337-393)

Only the data manipulation is modelled (the spreadsheet write is I/O): the
data rows, a blank spacer row, and one summary row per non-`"null"`
currency.  `pandas.groupby` sorts its keys, so summary rows appear in
lexicographic currency order; `pd.to_numeric(errors='coerce').fillna(0)`
turns unparseable totals into zero. -/

/-- An exact decimal value: an integer numerator over a power-of-ten
denominator.  Python sums these totals as IEEE doubles; on the two-decimal
amounts the engine produces, the float results coincide with the exact
decimal values modelled here. -/
def DecVal : Type :=
  Int × Nat

/-- Exact addition of decimal values (no normalization needed; only the
quotient is ever observed). -/
def decAdd (a b : DecVal) : DecVal :=
  (a.1 * (b.2 : Int) + b.1 * (a.2 : Int), a.2 * b.2)

/-- The zero decimal value (`fillna(0)` for unparseable totals). -/
def decZero : DecVal :=
  ((0 : Int), 1)

/-- Decimal parser for `pd.to_numeric` on a total string: optional sign,
digits with an optional single dot (scientific notation is not used by
these records).  Unparseable strings give `none` (coerced to 0). -/
def parseTotal (s : String) : Option DecVal :=
  let core := fun (l : List Char) (sign : Int) =>
    match List.span Char.isDigit l with
    | (ip, rest) =>
      match rest with
      | [] =>
        if ip.isEmpty then none
        else some ((sign * (digitsToNat ip : Int), 1) : DecVal)
      | '.' :: fr =>
        match List.span Char.isDigit fr with
        | (fp, []) =>
          if ip.isEmpty && fp.isEmpty then none
          else some ((sign * ((digitsToNat ip * 10 ^ fp.length
              + digitsToNat fp : Nat) : Int), 10 ^ fp.length) : DecVal)
        | (_, _ :: _) => none
      | _ => none
  match stripChars s.data with
  | '-' :: r => core r (-1)
  | '+' :: r => core r 1
  | t => core t 1

/-- Lexicographic comparison on code points, Python's string order. -/
def strLeB (a b : String) : Bool :=
  a.data.map Char.toNat ≤ b.data.map Char.toNat

/-- Insertion sort by `strLeB` (stable; models pandas' sorted group keys). -/
def insertStr (x : String) : List String → List String
  | [] => [x]
  | y :: ys => if strLeB x y then x :: y :: ys else y :: insertStr x ys

/-- Sort a list of currency codes lexicographically. -/
def sortStrings : List String → List String
  | [] => []
  | x :: xs => insertStr x (sortStrings xs)

/-- First-occurrence deduplication, with the already-seen values as the
accumulator. -/
def dedupGo : List String → List String → List String
  | [], _ => []
  | x :: xs, seen =>
    if seen.contains x then dedupGo xs seen else x :: dedupGo xs (x :: seen)

/-- First-occurrence deduplication. -/
def dedupStrings (l : List String) : List String :=
  dedupGo l []

/-- The distinct currency values of a record list, in pandas' sorted group
order. -/
def distinctCurrencies (l : List Record) : List String :=
  sortStrings (dedupStrings (l.map Record.currency))

/-- Sum of the parseable totals of the records with currency `c`
(unparseable totals contribute zero). -/
def sumForCurrency (c : String) (l : List Record) : DecVal :=
  ((l.filter (fun r => r.currency = c)).map
    (fun r => (parseTotal r.total).getD decZero)).foldl decAdd decZero

/-- Python's `f"{v:.2f}"` on a nonnegative exact multiple of `1/100`
(every currency sum of two-decimal totals has this form; the quotient of
the scaled numerator by the denominator is exact there). -/
def fmt2q (q : DecVal) : String :=
  fmt2cents ((q.1 * 100 / (q.2 : Int)).toNat)

/-- The blank spacer row (source lines 359-361). -/
def blankRecord : Record :=
  ⟨"", "", "", "", "", ""⟩

/-- One summary row (source lines 364-376). -/
def summaryRecord (c : String) (l : List Record) : Record :=
  ⟨"", "TOTALE " ++ c, "", "", fmt2q (sumForCurrency c l), c⟩

/-- The rows written by `save_all_to_excel` (source lines 337-393): nothing
for an empty input; otherwise the data rows, the blank spacer row, and one
summary row per non-`"null"` currency in sorted order. -/
def exportRows (data_list : List Record) : List Record :=
  if data_list.isEmpty then []
  else
    data_list ++ blankRecord ::
      ((distinctCurrencies data_list).filter (fun c => c ≠ "null")).map
        (fun c => summaryRecord c data_list)

/-! ### Claim-side definitions

These definitions follow the wording of the specification claims (not the
source); the theorems below compare them with the source-side embedding. -/

/-- Canonical `dd/mm/yyyy` shape: ten characters, digits in the day, month
and year positions, slash separators. -/
def canonicalShapeChars : List Char → Bool
  | [d1, d2, s1, m1, m2, s2, y1, y2, y3, y4] =>
    d1.isDigit && d2.isDigit && s1 = '/' && m1.isDigit && m2.isDigit &&
    s2 = '/' && y1.isDigit && y2.isDigit && y3.isDigit && y4.isDigit
  | _ => false

/-- Canonical date shape on a string. -/
def canonicalShape (s : String) : Bool :=
  canonicalShapeChars s.data

/-- The date-field shape asserted by claim C4: the sentinel, a canonical
date, or a canonical date wrapped in parentheses. -/
def specDateShape (s : String) : Bool :=
  s = "null" || canonicalShape s ||
  (match s.data with
   | '(' :: rest => rest.getLast? = some ')' && canonicalShapeChars rest.dropLast
   | _ => false)

/-- The two-decimal total shape asserted by claim C4: one or more digits,
a dot, exactly two digits. -/
def twoDecShape (s : String) : Bool :=
  match s.data.reverse with
  | b :: a :: '.' :: rest =>
    a.isDigit && b.isDigit && !rest.isEmpty && rest.all Char.isDigit
  | _ => false

/-- Claim C5's token extraction: the whole match for the month pattern,
otherwise the captured group with ALL internal whitespace removed (the
claim's wording; the source removes only the space character). -/
def spec_rawTokenOf (p : DatePat) (line : String) : Option String :=
  match searchPat p line.data with
  | some tk =>
    some (if p = DatePat.enMon then ⟨tk⟩ else ⟨tk.filter (fun c => !isSpaceChar c)⟩)
  | none => none

/-- Claim C5's inner pattern loop over one line. -/
def spec_tryPats (lang : Lang) (line : String) : Option String :=
  (datePatterns lang).findSome? (fun p => spec_rawTokenOf p line)

/-- Claim C5's date field: first matching line and pattern win, the token
is normalized; otherwise today's date in parentheses. -/
def spec_dateField (lang : Lang) (lines : List String) (today : String) : String :=
  match lines.findSome? (spec_tryPats lang) with
  | some raw => normalize_date raw lang
  | none => "(" ++ today ++ ")"

/-- Claim C7's pass-1 predicate on a line: trimmed length at least three and
an uppercased corporate-suffix hit. -/
def spec_vendorPass1 (lang : Lang) (line : String) : Bool :=
  3 ≤ (pyStrip line).length && anyKw (suffixesOf lang) (pyUpper (pyStrip line))

/-- Claim C7's pass-2 predicate on a line: trimmed length at least three,
some alphabetic character, and no generic header keyword. -/
def spec_vendorPass2 (lang : Lang) (line : String) : Bool :=
  3 ≤ (pyStrip line).length && (pyStrip line).data.any Char.isAlpha &&
    !anyKw (skipKeywordsOf lang) (pyUpper (pyStrip line))

/-- Claim C7's vendor: the first of the first eight lines passing pass 1,
else the first line anywhere passing pass 2, else the sentinel. -/
def spec_vendor (lang : Lang) (lines : List String) : String :=
  match (lines.take 8).find? (spec_vendorPass1 lang) with
  | some l => pyStrip l
  | none =>
    match lines.find? (spec_vendorPass2 lang) with
    | some l => pyStrip l
    | none => "null"

/-- Claim C6's retained candidates: lines that match no date pattern, scored,
keeping only positive scores, in original order. -/
def spec_candidates (lang : Lang) (lines : List String) : List ScoredLine :=
  (((List.range lines.length).filter
      (fun i => !isDateLine lang (lines.getD i ""))).map
    (fun i => (⟨i, pyStrip (lines.getD i ""),
      scoreOf lang (pyStrip (lines.getD i ""))⟩ : ScoredLine))).filter
    (fun sl => 0 < sl.score)

/-- Claim C6's final choice: the highest-scoring candidate, ties resolved
in favor of the first one encountered — the first candidate whose score is
greater than or equal to every candidate's score. -/
def spec_best? (l : List Cand) : Option Cand :=
  l.find? (fun c => l.all (fun c2 => c2.score ≤ c.score))

/-- Claim C6's location: merge-walk the retained candidates, then take the
text of the best one; the sentinel if nothing scored positively. -/
def spec_location (lang : Lang) (lines : List String) : String :=
  match spec_best? (mergePass (spec_candidates lang lines)) with
  | some c => c.text
  | none => "null"

/-- Statement of the amended claim C2: a single in-order scan; the first
line carrying any currency marker decides (Euro checked before Dollar
within that line); with no marker anywhere, the locale default applies. -/
def c2Statement (lines : List String) (fn t : String) : Prop :=
  (∃ i, ∃ hi : i < lines.length,
    (∀ j, ∀ hj : j < lines.length, j < i →
      hasEuroMarker (lines.get ⟨j, hj⟩) = false ∧
      hasDollarMarker (lines.get ⟨j, hj⟩) = false) ∧
    (hasEuroMarker (lines.get ⟨i, hi⟩) = true ∨
      hasDollarMarker (lines.get ⟨i, hi⟩) = true) ∧
    (extract_info lines fn t).currency =
      (if hasEuroMarker (lines.get ⟨i, hi⟩) then "EUR" else "USD")) ∨
  ((∀ l ∈ lines, hasEuroMarker l = false ∧ hasDollarMarker l = false) ∧
    (extract_info lines fn t).currency =
      (match detect_language lines with
       | Lang.IT => "EUR"
       | Lang.EN => "USD"))

/-- Statement of the amended claim C5: scanning line by line in order and
pattern by pattern within a line, the first matching token (spaces removed
for the numeric patterns) is normalized; with no match anywhere, the date
field is today's date in parentheses. -/
def c5Statement (lines : List String) (fn t : String) : Prop :=
  (∃ i, ∃ hi : i < lines.length, ∃ raw,
    (∀ j, ∀ hj : j < lines.length, j < i →
      tryPats (detect_language lines) (lines.get ⟨j, hj⟩) = none) ∧
    tryPats (detect_language lines) (lines.get ⟨i, hi⟩) = some raw ∧
    (extract_info lines fn t).date =
      normalize_date raw (detect_language lines)) ∨
  ((∀ l ∈ lines, tryPats (detect_language lines) l = none) ∧
    (extract_info lines fn t).date = "(" ++ t ++ ")")

/-! ### Generic helper lemmas -/

theorem findSome?_eq_none_iff {α β : Type} (f : α → Option β) (l : List α) :
    l.findSome? f = none ↔ ∀ a ∈ l, f a = none := by
  induction l with
  | nil => simp
  | cons x xs ih =>
    cases hx : f x with
    | some b => simp [List.findSome?_cons, hx]
    | none => simp [List.findSome?_cons, hx, ih]

theorem findSome?_eq_some_mem {α β : Type} {f : α → Option β} {l : List α}
    {b : β} (h : l.findSome? f = some b) : ∃ a ∈ l, f a = some b := by
  induction l with
  | nil => simp at h
  | cons x xs ih =>
    cases hx : f x with
    | some c =>
      rw [List.findSome?_cons, hx] at h
      simp only [Option.some.injEq] at h
      exact ⟨x, by simp, by rw [hx, h]⟩
    | none =>
      rw [List.findSome?_cons, hx] at h
      simp only at h
      obtain ⟨a, ha, hfa⟩ := ih h
      exact ⟨a, by simp [ha], hfa⟩

theorem findSome?_eq_some_first {α β : Type} {f : α → Option β} {l : List α}
    {b : β} (h : l.findSome? f = some b) :
    ∃ i, ∃ hi : i < l.length, f (l.get ⟨i, hi⟩) = some b ∧
      ∀ j, ∀ hj : j < l.length, j < i → f (l.get ⟨j, hj⟩) = none := by
  induction l with
  | nil => simp at h
  | cons x xs ih =>
    cases hx : f x with
    | some c =>
      rw [List.findSome?_cons, hx] at h
      refine ⟨0, by simp, ?_, ?_⟩
      · simpa [hx] using h
      · intro j hj hj0
        omega
    | none =>
      rw [List.findSome?_cons, hx] at h
      obtain ⟨i, hi, hfi, hprev⟩ := ih h
      refine ⟨i + 1, by simpa using Nat.succ_lt_succ hi, by simpa using hfi, ?_⟩
      intro j hj hji
      cases j with
      | zero => simpa using hx
      | succ k =>
        have hk : k < xs.length := by simpa using Nat.lt_of_succ_lt_succ hj
        simpa using hprev k hk (Nat.lt_of_succ_lt_succ hji)

theorem findSome?_if_eq_find? {α β : Type} (p : α → Bool) (g : α → β)
    (l : List α) :
    l.findSome? (fun a => if p a then some (g a) else none) =
      (l.find? p).map g := by
  induction l with
  | nil => simp
  | cons x xs ih =>
    by_cases hx : p x
    · simp [List.findSome?_cons, List.find?_cons, hx]
    · simp [List.findSome?_cons, List.find?_cons, hx, ih]

theorem find?_congr_pred {α : Type} {p q : α → Bool} {l : List α}
    (h : ∀ a ∈ l, p a = q a) : l.find? p = l.find? q := by
  induction l with
  | nil => simp
  | cons x xs ih =>
    have hx := h x (by simp)
    rw [List.find?_cons, List.find?_cons, ← hx]
    cases hp : p x
    · simp only [hp]
      exact ih (fun a ha => h a (by simp [ha]))
    · simp [hp]

/-- Statement of the amended claim C4: the record's filename is the
passed-through non-empty argument; vendor and location are the sentinel or
non-empty; the date is the sentinel, of the claimed canonical/parenthesized
shape, or exactly the raw matched token (when normalization fails, the
source returns the token unchanged); the total is the sentinel or a
two-decimal string; the currency is EUR, USD or the sentinel. -/
def c4Statement (lines : List String) (fn t : String) : Prop :=
  (extract_info lines fn t).filename = fn ∧
  (extract_info lines fn t).filename ≠ "" ∧
  ((extract_info lines fn t).vendor = "null" ∨ (extract_info lines fn t).vendor ≠ "") ∧
  ((extract_info lines fn t).location = "null" ∨ (extract_info lines fn t).location ≠ "") ∧
  ((extract_info lines fn t).date = "null" ∨
    specDateShape (extract_info lines fn t).date = true ∨
    (∃ raw, scanRawDate (detect_language lines) lines = some raw ∧
      (extract_info lines fn t).date = raw)) ∧
  ((extract_info lines fn t).total = "null" ∨
    twoDecShape (extract_info lines fn t).total = true) ∧
  ((extract_info lines fn t).currency = "EUR" ∨
    (extract_info lines fn t).currency = "USD" ∨
    (extract_info lines fn t).currency = "null")

/-- Statement of the amended claim C9: for a non-empty record list, the
export rows are the unmodified data records, one blank separator record,
then one summary record per distinct non-`"null"` currency (in pandas'
sorted group order), each carrying the two-decimal sum of that currency's
parseable totals. -/
def c9Statement (l : List Record) : Prop :=
  exportRows l = l ++ blankRecord ::
      ((distinctCurrencies l).filter (fun c => c ≠ "null")).map
        (fun c => summaryRecord c l) ∧
  (exportRows l).take l.length = l ∧
  (∀ c, c ∈ (distinctCurrencies l).filter (fun c => c ≠ "null") ↔
    (c ≠ "null" ∧ c ∈ l.map Record.currency))

/-- Statement of the amended claim C1: the total field is the resolved
value (two decimals when positive), and resolution obeys strict pool
precedence over the explicit pool `E`, blind pool `B` and cash pool `C`
computed from the line sequence — with the cash cap being the program's
float comparison `capLE` rather than the exact decimal `v ≤ mc + 0.01`. -/
def c1Statement (lines : List String) (fn t : String) : Prop :=
  ((extract_info lines fn t).total =
    (match resolveTotal (strategyA (detect_language lines) lines).1
        (strategyB (detect_language lines) lines).1
        ((strategyA (detect_language lines) lines).2 ++
          (strategyB (detect_language lines) lines).2) with
     | some v => if 0 < v then fmt2cents v else "null"
     | none => "null")) ∧
  (∀ E B C : List Nat,
    (E ≠ [] → resolveTotal E B C = listMax? E) ∧
    (E = [] → B ≠ [] → ∀ mc, listMax? C = some mc →
      ((B.filter (fun v => capLE v mc) ≠ [] →
        resolveTotal E B C = listMax? (B.filter (fun v => capLE v mc))) ∧
       (B.filter (fun v => capLE v mc) = [] →
        resolveTotal E B C = listMax? B))) ∧
    (E = [] → B ≠ [] → listMax? C = none → resolveTotal E B C = listMax? B) ∧
    (E = [] → B = [] → resolveTotal E B C = listMax? C))

/-! ### Bridge lemmas about `extract_info` -/

theorem extract_info_cons (x : String) (xs : List String) (fn t : String) :
    extract_info (x :: xs) fn t =
      ⟨fn, vendorOf (detect_language (x :: xs)) (x :: xs),
        locationOf (detect_language (x :: xs)) (x :: xs),
        dateFieldOf (detect_language (x :: xs)) (x :: xs) t,
        totalFieldOf (detect_language (x :: xs)) (x :: xs),
        currencyFieldOf (detect_language (x :: xs)) (x :: xs)⟩ :=
  rfl

theorem extract_info_ne_nil (lines : List String) (fn t : String)
    (h : lines ≠ []) :
    extract_info lines fn t =
      ⟨fn, vendorOf (detect_language lines) lines,
        locationOf (detect_language lines) lines,
        dateFieldOf (detect_language lines) lines t,
        totalFieldOf (detect_language lines) lines,
        currencyFieldOf (detect_language lines) lines⟩ := by
  cases lines with
  | nil => exact absurd rfl h
  | cons x xs => exact extract_info_cons x xs fn t

theorem lineCurrency_eq_none_iff (l : String) :
    lineCurrency l = none ↔
      hasEuroMarker l = false ∧ hasDollarMarker l = false := by
  unfold lineCurrency
  cases he : hasEuroMarker l <;> cases hd : hasDollarMarker l <;> simp [he, hd]

/-! ### Claim theorems, first batch -/

/-- C10: on an empty line sequence, `extract_info` returns immediately the
record with the passed-through filename and every other field exactly the
sentinel `"null"` — no parenthesized current-date fallback and no
locale-default currency. -/
theorem c10_empty_input (fn t : String) :
    extract_info [] fn t = ⟨fn, "null", "null", "null", "null", "null"⟩ :=
  rfl

/-- C2 counterexample: with a Dollar marker on an earlier line and a Euro
marker on a later line, the claim predicts EUR, but the single-pass scan of
`extract_info` stops at the first marked line and yields USD. -/
theorem c2_counterexample :
    hasDollarMarker "$ 5.00" = true ∧ hasEuroMarker "$ 5.00" = false ∧
    hasEuroMarker "€ 5.00" = true ∧
    (extract_info ["$ 5.00", "€ 5.00"] "r.png" "01/01/2024").currency = "USD" ∧
    (extract_info ["$ 5.00", "€ 5.00"] "r.png" "01/01/2024").currency ≠ "EUR" := by
  decide

/-- C2 (amended): currency detection is a single in-order scan; the first
line containing any currency marker decides (EUR if that line has a Euro
marker, Euro checked before Dollar within the line, USD otherwise); the
locale default applies only when no line has any marker. -/
theorem c2_currency_first_marker (lines : List String) (fn t : String)
    (h : lines ≠ []) : c2Statement lines fn t := by
  unfold c2Statement
  rw [extract_info_ne_nil lines fn t h]
  show (∃ i, ∃ hi : i < lines.length, _) ∨ _
  unfold currencyFieldOf
  cases hscan : lines.findSome? lineCurrency with
  | none =>
    right
    refine ⟨fun l hl => (lineCurrency_eq_none_iff l).mp
      ((findSome?_eq_none_iff lineCurrency lines).mp hscan l hl), rfl⟩
  | some c =>
    left
    obtain ⟨i, hi, hfi, hprev⟩ := findSome?_eq_some_first hscan
    refine ⟨i, hi, ?_, ?_, ?_⟩
    · intro j hj hji
      exact (lineCurrency_eq_none_iff _).mp (hprev j hj hji)
    · by_cases he : hasEuroMarker (lines.get ⟨i, hi⟩) = true
      · exact Or.inl he
      · right
        unfold lineCurrency at hfi
        rw [if_neg (by simpa using he)] at hfi
        by_cases hd : hasDollarMarker (lines.get ⟨i, hi⟩) = true
        · exact hd
        · rw [if_neg (by simpa using hd)] at hfi
          exact absurd hfi (by simp)
    · unfold lineCurrency at hfi
      by_cases he : hasEuroMarker (lines.get ⟨i, hi⟩) = true
      · rw [if_pos (by simpa using he)] at hfi
        rw [if_pos (by simpa using he)]
        simp only [Option.some.injEq] at hfi
        exact hfi.symm
      · rw [if_neg (by simpa using he)] at hfi
        rw [if_neg (by simpa using he)]
        by_cases hd : hasDollarMarker (lines.get ⟨i, hi⟩) = true
        · rw [if_pos (by simpa using hd)] at hfi
          simp only [Option.some.injEq] at hfi
          exact hfi.symm
        · rw [if_neg (by simpa using hd)] at hfi
          exact absurd hfi (by simp)

/-- C2 witness: the amended claim applied to a concrete one-line input. -/
theorem c2_witness :
    (["café €uro"] : List String) ≠ [] ∧ c2Statement ["café €uro"] "r.png" "01/01/2024" :=
  ⟨by decide, c2_currency_first_marker ["café €uro"] "r.png" "01/01/2024" (by decide)⟩

/-- C3 counterexample: on an input where no date pattern matches, the date
field embeds the current date, so two invocations at different current
dates return different records — the extractor is not independent of the
current time. -/
theorem c3_counterexample :
    extract_info ["HELLO"] "r.png" "01/01/2024" ≠
      extract_info ["HELLO"] "r.png" "02/01/2024" := by
  decide

/-- C3 (amended): `extract_info` is a pure function of line sequence,
filename and current date, and whenever some date pattern matches some
line, its result does not depend on the current date at all. -/
theorem c3_time_independent (lines : List String) (fn t1 t2 : String)
    (h : (scanRawDate (detect_language lines) lines).isSome = true) :
    extract_info lines fn t1 = extract_info lines fn t2 := by
  cases lines with
  | nil => simp [scanRawDate] at h
  | cons x xs =>
    obtain ⟨raw, hraw⟩ := Option.isSome_iff_exists.mp h
    rw [extract_info_cons, extract_info_cons]
    have hdate : dateFieldOf (detect_language (x :: xs)) (x :: xs) t1 =
        dateFieldOf (detect_language (x :: xs)) (x :: xs) t2 := by
      unfold dateFieldOf
      rw [hraw]
    rw [hdate]

/-- C3 witness: a date-bearing input, on which the record is the same for
two different current dates. -/
theorem c3_witness :
    (scanRawDate (detect_language ["01/02/2023"]) ["01/02/2023"]).isSome = true ∧
    extract_info ["01/02/2023"] "r.png" "05/05/2025" =
      extract_info ["01/02/2023"] "r.png" "06/06/2026" :=
  ⟨by decide, c3_time_independent ["01/02/2023"] "r.png" "05/05/2025" "06/06/2026" (by decide)⟩

/-- C5 counterexample: the claim says the captured group has internal
whitespace removed, but the source removes only spaces; on a token whose
`\s*` gaps contain a tab, the resulting date field (the raw token, since
normalization fails on it) keeps the tab, while the claim-side extractor
yields the tab-free token. -/
theorem c5_counterexample :
    (extract_info ["99\t-99-99"] "r.png" "01/01/2024").date = "99\t-99-99" ∧
    spec_dateField (detect_language ["99\t-99-99"]) ["99\t-99-99"] "01/01/2024" =
      "99-99-99" ∧
    (extract_info ["99\t-99-99"] "r.png" "01/01/2024").date ≠
      spec_dateField (detect_language ["99\t-99-99"]) ["99\t-99-99"] "01/01/2024" := by
  decide

/-- C5 (amended): the date extractor scans line by line in order and
pattern by pattern within each line; at the first match the raw token (the
whole match for the EN month-name pattern, otherwise the captured group
with internal space characters removed) is passed through the normalizer
with the active locale, and scanning stops; with no match anywhere the date
field is the current date in parentheses. -/
theorem c5_date_first_hit (lines : List String) (fn t : String)
    (h : lines ≠ []) : c5Statement lines fn t := by
  unfold c5Statement
  rw [extract_info_ne_nil lines fn t h]
  show (∃ i, ∃ hi : i < lines.length, _) ∨ _
  unfold dateFieldOf scanRawDate
  cases hscan : lines.findSome? (tryPats (detect_language lines)) with
  | none =>
    right
    exact ⟨(findSome?_eq_none_iff _ lines).mp hscan, rfl⟩
  | some raw =>
    left
    obtain ⟨i, hi, hfi, hprev⟩ := findSome?_eq_some_first hscan
    exact ⟨i, hi, raw, fun j hj hji => hprev j hj hji, hfi, rfl⟩

/-- C5 witness: the amended claim applied to a concrete date-bearing
input. -/
theorem c5_witness :
    (["01/02/2023"] : List String) ≠ [] ∧
    c5Statement ["01/02/2023"] "r.png" "01/01/2024" :=
  ⟨by decide, c5_date_first_hit ["01/02/2023"] "r.png" "01/01/2024" (by decide)⟩

/-- The vendor extractor agrees with the claim-side two-pass description. -/
theorem vendorOf_eq_spec (lang : Lang) (lines : List String) :
    vendorOf lang lines = spec_vendor lang lines := by
  unfold vendorOf spec_vendor
  rw [show vendorPass1Line lang = fun l =>
        if spec_vendorPass1 lang l then some (pyStrip l) else none from rfl,
      show vendorPass2Line lang = fun l =>
        if spec_vendorPass2 lang l then some (pyStrip l) else none from rfl,
      findSome?_if_eq_find?, findSome?_if_eq_find?]
  cases (lines.take 8).find? (spec_vendorPass1 lang) <;>
    cases lines.find? (spec_vendorPass2 lang) <;> simp

/-- C7: the vendor extractor first scans only the first eight lines for the
first trimmed line of length at least three whose uppercased form contains
a locale corporate-suffix token; only if that finds nothing does it scan
every line, skipping short lines, letterless lines and header-keyword
lines, returning the first survivor; otherwise the vendor is `"null"`. -/
theorem c7_vendor_two_pass (lines : List String) (fn t : String) :
    (extract_info lines fn t).vendor = spec_vendor (detect_language lines) lines := by
  cases lines with
  | nil => rfl
  | cons x xs =>
    rw [extract_info_cons]
    exact vendorOf_eq_spec (detect_language (x :: xs)) (x :: xs)

/-! ### C6: location extractor versus the claim-side description -/

theorem filterMap_two_if {α β : Type} (A : α → Bool) (p : β → Prop)
    [DecidablePred p] (g : α → β) (l : List α) :
    l.filterMap (fun a => if A a then none else if p (g a) then some (g a) else none) =
      ((l.filter (fun a => !A a)).map g).filter (fun b => decide (p b)) := by
  induction l with
  | nil => rfl
  | cons x xs ih =>
    cases hA : A x
    · by_cases hp : p (g x)
      · simp [List.filterMap_cons, List.filter_cons, hA, hp, ih]
      · simp [List.filterMap_cons, List.filter_cons, hA, hp, ih]
    · simp [List.filterMap_cons, List.filter_cons, hA, ih]

theorem scoredLinesOf_eq_spec (lang : Lang) (lines : List String) :
    scoredLinesOf lang lines = spec_candidates lang lines := by
  unfold scoredLinesOf spec_candidates
  exact filterMap_two_if (fun i => isDateLine lang (lines.getD i ""))
    (fun sl => 0 < sl.score)
    (fun i => (⟨i, pyStrip (lines.getD i ""),
      scoreOf lang (pyStrip (lines.getD i ""))⟩ : ScoredLine))
    (List.range lines.length)

theorem spec_best?_cons_lt (b c : Cand) (cs : List Cand)
    (h : b.score < c.score) :
    spec_best? (b :: c :: cs) = spec_best? (c :: cs) := by
  have hb : ((b :: c :: cs).all fun c2 => c2.score ≤ b.score) = false := by
    apply Bool.eq_false_iff.mpr
    simp only [ne_eq, List.all_cons, Bool.and_eq_true, decide_eq_true_eq]
    rintro ⟨-, hc, -⟩
    omega
  have hcongr :
      List.find? (fun x => (b :: c :: cs).all fun c2 => c2.score ≤ x.score) (c :: cs) =
        List.find? (fun x => (c :: cs).all fun c2 => c2.score ≤ x.score) (c :: cs) := by
    apply find?_congr_pred
    intro a _
    rw [Bool.eq_iff_iff]
    simp only [List.all_cons, Bool.and_eq_true, decide_eq_true_eq]
    constructor
    · rintro ⟨-, h2, h3⟩
      exact ⟨h2, h3⟩
    · rintro ⟨h2, h3⟩
      exact ⟨by omega, h2, h3⟩
  unfold spec_best?
  rw [List.find?_cons, hb]
  simpa using hcongr

theorem spec_best?_cons_ge (b c : Cand) (cs : List Cand)
    (h : c.score ≤ b.score) :
    spec_best? (b :: c :: cs) = spec_best? (b :: cs) := by
  have hpred : ((b :: c :: cs).all fun c2 => c2.score ≤ b.score) =
      ((b :: cs).all fun c2 => c2.score ≤ b.score) := by
    rw [Bool.eq_iff_iff]
    simp only [List.all_cons, Bool.and_eq_true, decide_eq_true_eq]
    constructor
    · rintro ⟨h1, -, h3⟩
      exact ⟨h1, h3⟩
    · rintro ⟨h1, h3⟩
      exact ⟨h1, h, h3⟩
  unfold spec_best?
  simp only [List.find?_cons, hpred]
  cases hall : ((b :: cs).all fun c2 => c2.score ≤ b.score) with
  | true => rfl
  | false =>
    have hc : ((b :: c :: cs).all fun c2 => c2.score ≤ c.score) = false := by
      apply Bool.eq_false_iff.mpr
      simp only [ne_eq, List.all_cons, Bool.and_eq_true, decide_eq_true_eq,
        List.all_eq_true]
      rintro ⟨hbc, -, h3⟩
      have hbtrue : ((b :: cs).all fun c2 => c2.score ≤ b.score) = true := by
        simp only [List.all_cons, Bool.and_eq_true, decide_eq_true_eq,
          List.all_eq_true]
        refine ⟨by omega, fun x hx => ?_⟩
        have hx3 := h3 x hx
        simp only [decide_eq_true_eq] at hx3 ⊢
        omega
      rw [hbtrue] at hall
      exact absurd hall (by simp)
    simp only [hc]
    apply find?_congr_pred
    intro a _
    rw [Bool.eq_iff_iff]
    simp only [List.all_cons, Bool.and_eq_true, decide_eq_true_eq]
    constructor
    · rintro ⟨h1, -, h3⟩
      exact ⟨h1, h3⟩
    · rintro ⟨h1, h3⟩
      exact ⟨h1, by omega, h3⟩

theorem foldl_maxStep_eq (l : List Cand) : ∀ b : Cand,
    List.foldl maxStep (some b) l = spec_best? (b :: l) := by
  induction l with
  | nil =>
    intro b
    simp [spec_best?, List.find?_cons, List.all_cons]
  | cons c cs ih =>
    intro b
    rw [List.foldl_cons]
    by_cases h : b.score < c.score
    · rw [show maxStep (some b) c = some c by simp [maxStep, h], ih c,
        spec_best?_cons_lt b c cs h]
    · rw [show maxStep (some b) c = some b by simp [maxStep, h], ih b,
        spec_best?_cons_ge b c cs (by omega)]

theorem maxByScore?_eq_spec_best? (l : List Cand) :
    maxByScore? l = spec_best? l := by
  cases l with
  | nil => rfl
  | cons c cs => exact foldl_maxStep_eq cs c

theorem locationOf_eq_spec (lang : Lang) (lines : List String) :
    locationOf lang lines = spec_location lang lines := by
  unfold locationOf spec_location
  rw [scoredLinesOf_eq_spec, maxByScore?_eq_spec_best?]

/-- C6: the location extractor scores each non-date-shaped line (+5 address
keyword, +6 postal pattern, +4 secondary locality pattern, −20 disqualifying
token), retains the positively-scored lines in order, pairwise-merges
index-adjacent candidates with a +5 bonus, and returns the text of the
highest-scoring candidate with ties going to the first one; with no
positive score the location is `"null"`. -/
theorem c6_location_scoring (lines : List String) (fn t : String) :
    (extract_info lines fn t).location = spec_location (detect_language lines) lines := by
  cases lines with
  | nil => rfl
  | cons x xs =>
    rw [extract_info_cons]
    exact locationOf_eq_spec (detect_language (x :: xs)) (x :: xs)

/-! ### C1: total resolution precedence -/

set_option maxRecDepth 16384

theorem resolveTotal_spec (E B C : List Nat) :
    (E ≠ [] → resolveTotal E B C = listMax? E) ∧
    (E = [] → B ≠ [] → ∀ mc, listMax? C = some mc →
      ((B.filter (fun v => capLE v mc) ≠ [] →
        resolveTotal E B C = listMax? (B.filter (fun v => capLE v mc))) ∧
       (B.filter (fun v => capLE v mc) = [] →
        resolveTotal E B C = listMax? B))) ∧
    (E = [] → B ≠ [] → listMax? C = none → resolveTotal E B C = listMax? B) ∧
    (E = [] → B = [] → resolveTotal E B C = listMax? C) := by
  refine ⟨?_, ?_, ?_, ?_⟩
  · intro hE
    unfold resolveTotal
    rw [if_pos (by simpa [List.isEmpty_iff] using hE)]
  · intro hE hB mc hmc
    subst hE
    constructor
    · intro hV
      unfold resolveTotal
      rw [if_neg (by simp), if_pos (by simpa [List.isEmpty_iff] using hB), hmc]
      simp only
      rw [if_pos (by simpa [List.isEmpty_iff] using hV)]
    · intro hV
      unfold resolveTotal
      rw [if_neg (by simp), if_pos (by simpa [List.isEmpty_iff] using hB), hmc]
      simp only
      rw [if_neg (by simp [hV]), if_pos (by simpa [List.isEmpty_iff] using hB)]
  · intro hE hB hmc
    subst hE
    unfold resolveTotal
    rw [if_neg (by simp), if_pos (by simpa [List.isEmpty_iff] using hB), hmc]
  · intro hE hB
    subst hE
    subst hB
    rfl

/-- Claim-side resolution following the claim's words, with the cash cap
read as exact decimal arithmetic: a blind value passes iff it is at most
one cent above the largest cash candidate. -/
def spec_resolveTotal (E B C : List Nat) : Option Nat :=
  let maxCash := listMax? C
  if !E.isEmpty then listMax? E
  else if !B.isEmpty then
    match maxCash with
    | some mc =>
      let valid := B.filter (fun t => t ≤ mc + 1)
      if !valid.isEmpty then listMax? valid
      else if !B.isEmpty then listMax? B
      else maxCash
    | none => listMax? B
  else maxCash

/-- C1 counterexample: with cash 2.01 and blind totals 1.00 and 2.02, the
program computes the cap `2.01 + 0.01` in doubles as 2.0199999999999996,
which excludes 2.02, and resolves 1.00; the claim's exact cap
`≤ max_cash + 0.01` keeps 2.02 and resolves 2.02. -/
theorem c1_counterexample :
    (extract_info ["CONTANTI 2,01", "1,00", "2,02"] "r.png" "01/01/2024").total
      = "1.00" ∧
    spec_resolveTotal
      (strategyA (detect_language ["CONTANTI 2,01", "1,00", "2,02"])
        ["CONTANTI 2,01", "1,00", "2,02"]).1
      (strategyB (detect_language ["CONTANTI 2,01", "1,00", "2,02"])
        ["CONTANTI 2,01", "1,00", "2,02"]).1
      ((strategyA (detect_language ["CONTANTI 2,01", "1,00", "2,02"])
        ["CONTANTI 2,01", "1,00", "2,02"]).2 ++
       (strategyB (detect_language ["CONTANTI 2,01", "1,00", "2,02"])
        ["CONTANTI 2,01", "1,00", "2,02"]).2) = some 202 ∧
    fmt2cents 202 = "2.02" := by
  decide

/-- C1 (amended): for every line sequence, the total resolved by
`extract_info` obeys strict pool precedence — maximum of the explicit pool
if non-empty, else the cash-capped maximum of the blind pool (falling back
to the full blind maximum when the cap empties it), else the largest cash
candidate, else unresolved — where the cash cap is the program's
double-precision test `t <= max_cash + 0.01`, not the exact decimal cap;
and on blind totals 12.50 and 45.00 with a 20.00 cash candidate the
resolved total is 12.50, not 45.00. -/
theorem c1_total_precedence (lines : List String) (fn t : String)
    (h : lines ≠ []) :
    c1Statement lines fn t ∧
    (extract_info ["CONTANTI 20,00", "12,50", "45,00"] fn t).total = "12.50" := by
  constructor
  · unfold c1Statement
    refine ⟨?_, fun E B C => resolveTotal_spec E B C⟩
    rw [extract_info_ne_nil lines fn t h]
    rfl
  · rw [extract_info_cons]
    exact (by decide :
      totalFieldOf (detect_language ["CONTANTI 20,00", "12,50", "45,00"])
        ["CONTANTI 20,00", "12,50", "45,00"] = "12.50")

/-- C1 witness: the precedence claim applied at the concrete cash-capped
input of the specification. -/
theorem c1_witness :
    (["CONTANTI 20,00", "12,50", "45,00"] : List String) ≠ [] ∧
    (extract_info ["CONTANTI 20,00", "12,50", "45,00"] "r.png" "01/01/2024").total
      = "12.50" :=
  ⟨by decide,
    (c1_total_precedence ["CONTANTI 20,00", "12,50", "45,00"] "r.png" "01/01/2024"
      (by decide)).2⟩

/-! ### C9: aggregation and export rows -/

theorem mem_insertStr (x y : String) (l : List String) :
    y ∈ insertStr x l ↔ y = x ∨ y ∈ l := by
  induction l with
  | nil => simp [insertStr]
  | cons z zs ih =>
    by_cases hle : strLeB x z
    · simp [insertStr, hle]
    · simp only [insertStr, hle, Bool.false_eq_true, if_false, List.mem_cons, ih]
      tauto

theorem mem_sortStrings (y : String) (l : List String) :
    y ∈ sortStrings l ↔ y ∈ l := by
  induction l with
  | nil => simp [sortStrings]
  | cons x xs ih => simp [sortStrings, mem_insertStr, ih]

theorem contains_eq_mem_str (seen : List String) (x : String) :
    seen.contains x = true ↔ x ∈ seen :=
  List.elem_iff

theorem mem_dedupGo (y : String) : ∀ (l seen : List String),
    y ∈ dedupGo l seen ↔ y ∈ l ∧ y ∉ seen := by
  intro l
  induction l with
  | nil =>
    intro seen
    simp [dedupGo]
  | cons x xs ih =>
    intro seen
    have hstep : dedupGo (x :: xs) seen =
        if seen.contains x then dedupGo xs seen
        else x :: dedupGo xs (x :: seen) := rfl
    by_cases hx : x ∈ seen
    · rw [hstep, if_pos ((contains_eq_mem_str seen x).mpr hx), ih seen]
      constructor
      · rintro ⟨hy, hns⟩
        exact ⟨List.mem_cons_of_mem x hy, hns⟩
      · rintro ⟨hy, hns⟩
        rcases List.mem_cons.mp hy with rfl | hy2
        · exact absurd hx hns
        · exact ⟨hy2, hns⟩
    · rw [hstep, if_neg (fun hcon => hx ((contains_eq_mem_str seen x).mp hcon))]
      constructor
      · intro hy
        rcases List.mem_cons.mp hy with rfl | hy2
        · exact ⟨List.mem_cons_self _ _, hx⟩
        · obtain ⟨h1, h2⟩ := (ih (x :: seen)).mp hy2
          exact ⟨List.mem_cons_of_mem x h1,
            fun hmem => h2 (List.mem_cons_of_mem x hmem)⟩
      · rintro ⟨hy, hns⟩
        by_cases hyx : y = x
        · subst hyx
          exact List.mem_cons_self _ _
        · apply List.mem_cons_of_mem
          apply (ih (x :: seen)).mpr
          refine ⟨?_, fun hmem => ?_⟩
          · rcases List.mem_cons.mp hy with rfl | hy2
            · exact absurd rfl hyx
            · exact hy2
          · rcases List.mem_cons.mp hmem with rfl | h2
            · exact hyx rfl
            · exact hns h2

theorem mem_distinctCurrencies (y : String) (l : List Record) :
    y ∈ distinctCurrencies l ↔ y ∈ l.map Record.currency := by
  unfold distinctCurrencies dedupStrings
  rw [mem_sortStrings, mem_dedupGo]
  simp

/-- C9 counterexample: on the empty record list the export produces no rows
at all — in particular no blank separator record is appended, contrary to
the claim's unconditional "appends one blank separator record". -/
theorem c9_counterexample :
    exportRows [] = [] ∧ blankRecord ∉ exportRows [] := by
  decide

/-- C9 (amended): for every NON-EMPTY record list, aggregation appends,
after the unmodified data records, one blank separator record and then one
summary record per distinct non-`"null"` currency, whose total is the
two-decimal sum of that currency's parseable totals with unparseable totals
contributing zero; currencies EUR, EUR, USD with totals 10.00, 20.00,
"null" yield summary totals EUR = 30.00 and USD = 0.00. -/
theorem c9_aggregation (l : List Record) (h : l ≠ []) :
    c9Statement l ∧
    exportRows
        [⟨"a", "v1", "x", "d", "10.00", "EUR"⟩,
         ⟨"b", "v2", "x", "d", "20.00", "EUR"⟩,
         ⟨"c", "v3", "x", "d", "null", "USD"⟩] =
      [⟨"a", "v1", "x", "d", "10.00", "EUR"⟩,
       ⟨"b", "v2", "x", "d", "20.00", "EUR"⟩,
       ⟨"c", "v3", "x", "d", "null", "USD"⟩, blankRecord,
       ⟨"", "TOTALE EUR", "", "", "30.00", "EUR"⟩,
       ⟨"", "TOTALE USD", "", "", "0.00", "USD"⟩] := by
  have hrows : exportRows l = l ++ blankRecord ::
      ((distinctCurrencies l).filter (fun c => c ≠ "null")).map
        (fun c => summaryRecord c l) := by
    unfold exportRows
    rw [if_neg (by simpa [List.isEmpty_iff] using h)]
  refine ⟨⟨hrows, ?_, ?_⟩, by decide⟩
  · rw [hrows, List.take_left]
  · intro c
    rw [List.mem_filter, mem_distinctCurrencies]
    simp only [decide_eq_true_eq]
    tauto

/-- C9 witness: the amended claim applied at the three-record example. -/
theorem c9_witness :
    ([⟨"a", "v1", "x", "d", "10.00", "EUR"⟩,
      ⟨"b", "v2", "x", "d", "20.00", "EUR"⟩,
      ⟨"c", "v3", "x", "d", "null", "USD"⟩] : List Record) ≠ [] ∧
    exportRows
        [⟨"a", "v1", "x", "d", "10.00", "EUR"⟩,
         ⟨"b", "v2", "x", "d", "20.00", "EUR"⟩,
         ⟨"c", "v3", "x", "d", "null", "USD"⟩] =
      [⟨"a", "v1", "x", "d", "10.00", "EUR"⟩,
       ⟨"b", "v2", "x", "d", "20.00", "EUR"⟩,
       ⟨"c", "v3", "x", "d", "null", "USD"⟩, blankRecord,
       ⟨"", "TOTALE EUR", "", "", "30.00", "EUR"⟩,
       ⟨"", "TOTALE USD", "", "", "0.00", "USD"⟩] :=
  ⟨by decide,
    (c9_aggregation [⟨"a", "v1", "x", "d", "10.00", "EUR"⟩,
      ⟨"b", "v2", "x", "d", "20.00", "EUR"⟩,
      ⟨"c", "v3", "x", "d", "null", "USD"⟩] (by decide)).2⟩

/-! ### C4: record field shapes -/

theorem data_append (s u : String) : (s ++ u).data = s.data ++ u.data := by
  cases s
  cases u
  rfl

theorem ne_empty_of_three_le (s : String) (h : 3 ≤ s.length) : s ≠ "" := by
  intro he
  rw [he] at h
  simp [String.length] at h

theorem digitChar_isDigit (n : Nat) : (digitChar n).isDigit = true := by
  unfold digitChar
  have h : n % 10 = 0 ∨ n % 10 = 1 ∨ n % 10 = 2 ∨ n % 10 = 3 ∨ n % 10 = 4 ∨
      n % 10 = 5 ∨ n % 10 = 6 ∨ n % 10 = 7 ∨ n % 10 = 8 ∨ n % 10 = 9 := by
    omega
  rcases h with h | h | h | h | h | h | h | h | h | h <;> rw [h] <;> decide

theorem formatDMY_shape (d m y : Nat) :
    canonicalShapeChars (formatDMY d m y) = true := by
  show canonicalShapeChars
    [digitChar (d % 100 / 10), digitChar d, '/', digitChar (m % 100 / 10),
     digitChar m, '/', digitChar (y / 1000), digitChar (y / 100),
     digitChar (y / 10), digitChar y] = true
  unfold canonicalShapeChars
  simp [digitChar_isDigit]

theorem canonicalShape_formatDMY (d m y : Nat) :
    canonicalShape (⟨formatDMY d m y⟩ : String) = true :=
  formatDMY_shape d m y

theorem normalize_date_shape (s : String) (lang : Lang) :
    normalize_date s lang = s ∨ canonicalShape (normalize_date s lang) = true := by
  unfold normalize_date
  by_cases h0 : (decide (s = "") || decide (s = "null")) = true
  · rw [if_pos h0]
    exact Or.inl rfl
  · rw [if_neg h0]
    cases h1 : strptimeAny (cleanDateStr s.data) with
    | some x => exact Or.inr (canonicalShape_formatDMY x.d x.m x.y)
    | none =>
      cases h2 : looseFallback (cleanDateStr s.data) with
      | some x => exact Or.inr (canonicalShape_formatDMY x.d x.m x.y)
      | none => exact Or.inl rfl

theorem specDateShape_of_canonical (s : String) (h : canonicalShape s = true) :
    specDateShape s = true := by
  unfold specDateShape
  rw [h]
  simp

theorem specDateShape_paren (t : String) (h : canonicalShape t = true) :
    specDateShape ("(" ++ t ++ ")") = true := by
  have hdata : ("(" ++ t ++ ")").data = '(' :: (t.data ++ [')']) := by
    rw [data_append, data_append]
    rfl
  unfold specDateShape
  rw [hdata]
  simp only [List.getLast?_concat, List.dropLast_concat]
  unfold canonicalShape at h
  simp [h]

theorem vendor_line_ne_empty (lang : Lang) (lines : List String) (k : Nat)
    (f : Lang → String → Option String)
    (hf : ∀ lg l v, f lg l = some v → 3 ≤ v.length)
    (v : String) (h : (lines.take k).findSome? (f lang) = some v) : v ≠ "" := by
  obtain ⟨a, -, ha⟩ := findSome?_eq_some_mem h
  exact ne_empty_of_three_le v (hf lang a v ha)

theorem vendorPass1Line_length (lg : Lang) (l v : String)
    (h : vendorPass1Line lg l = some v) : 3 ≤ v.length := by
  rw [show vendorPass1Line lg l =
      (if 3 ≤ (pyStrip l).length && anyKw (suffixesOf lg) (pyUpper (pyStrip l))
       then some (pyStrip l) else none) from rfl] at h
  split at h
  · rename_i hc
    simp only [Option.some.injEq] at h
    subst h
    simp only [Bool.and_eq_true, decide_eq_true_eq] at hc
    exact hc.1
  · exact absurd h (by simp)

theorem vendorPass2Line_length (lg : Lang) (l v : String)
    (h : vendorPass2Line lg l = some v) : 3 ≤ v.length := by
  rw [show vendorPass2Line lg l =
      (if 3 ≤ (pyStrip l).length && (pyStrip l).data.any Char.isAlpha &&
          !anyKw (skipKeywordsOf lg) (pyUpper (pyStrip l))
       then some (pyStrip l) else none) from rfl] at h
  split at h
  · rename_i hc
    simp only [Option.some.injEq] at h
    subst h
    simp only [Bool.and_eq_true, decide_eq_true_eq] at hc
    exact hc.1.1
  · exact absurd h (by simp)

theorem vendorOf_null_or_ne (lang : Lang) (lines : List String) :
    vendorOf lang lines = "null" ∨ vendorOf lang lines ≠ "" := by
  unfold vendorOf
  cases h1 : (lines.take 8).findSome? (vendorPass1Line lang) with
  | some v =>
    right
    obtain ⟨a, -, ha⟩ := findSome?_eq_some_mem h1
    exact ne_empty_of_three_le v (vendorPass1Line_length lang a v ha)
  | none =>
    cases h2 : lines.findSome? (vendorPass2Line lang) with
    | some v =>
      right
      obtain ⟨a, -, ha⟩ := findSome?_eq_some_mem h2
      exact ne_empty_of_three_le v (vendorPass2Line_length lang a v ha)
    | none => exact Or.inl rfl

theorem scoreOf_empty (lang : Lang) : scoreOf lang "" = 0 := by
  cases lang <;> decide

theorem scoredLinesOf_text_ne (lang : Lang) (lines : List String) :
    ∀ e ∈ scoredLinesOf lang lines, e.text ≠ "" := by
  intro e he
  rw [scoredLinesOf_eq_spec] at he
  unfold spec_candidates at he
  obtain ⟨hmem, hpos⟩ := List.mem_filter.mp he
  obtain ⟨i, -, hi⟩ := List.mem_map.mp hmem
  subst hi
  dsimp only at hpos ⊢
  simp only [decide_eq_true_eq] at hpos
  intro htext
  rw [htext, scoreOf_empty lang] at hpos
  omega

theorem append_space_ne (a b : String) : a ++ " " ++ b ≠ "" := by
  intro h
  have hd := congrArg String.data h
  rw [data_append, data_append] at hd
  simp at hd

theorem mergePass_text_ne :
    ∀ (sl : List ScoredLine), (∀ e ∈ sl, e.text ≠ "") →
      ∀ c ∈ mergePass sl, c.text ≠ ""
  | [], _, c, hc => by simp [mergePass] at hc
  | [x], h, c, hc => by
    simp only [mergePass, List.mem_singleton] at hc
    subst hc
    exact h x (by simp)
  | x :: y :: rest, h, c, hc => by
    rw [show mergePass (x :: y :: rest) =
        (if y.idx = x.idx + 1 then
          ⟨x.text ++ " " ++ y.text, x.score + y.score + 5⟩ :: mergePass rest
        else ⟨x.text, x.score⟩ :: mergePass (y :: rest)) from rfl] at hc
    by_cases hadj : y.idx = x.idx + 1
    · rw [if_pos hadj] at hc
      rcases List.mem_cons.mp hc with rfl | hc2
      · exact append_space_ne x.text y.text
      · exact mergePass_text_ne rest (fun e he => h e (by simp [he])) c hc2
    · rw [if_neg hadj] at hc
      rcases List.mem_cons.mp hc with rfl | hc2
      · exact h x (by simp)
      · exact mergePass_text_ne (y :: rest) (fun e he => h e (by simp [he])) c hc2

theorem maxByScore?_mem (l : List Cand) (c : Cand)
    (h : maxByScore? l = some c) : c ∈ l := by
  rw [maxByScore?_eq_spec_best?] at h
  exact List.mem_of_find?_eq_some h

theorem locationOf_null_or_ne (lang : Lang) (lines : List String) :
    locationOf lang lines = "null" ∨ locationOf lang lines ≠ "" := by
  unfold locationOf
  cases h : maxByScore? (mergePass (scoredLinesOf lang lines)) with
  | none => exact Or.inl rfl
  | some c =>
    right
    exact mergePass_text_ne (scoredLinesOf lang lines)
      (scoredLinesOf_text_ne lang lines) c (maxByScore?_mem _ c h)

theorem natDigitsAux_digits : ∀ (fuel n : Nat),
    ∀ c ∈ natDigitsAux fuel n, c.isDigit = true := by
  intro fuel
  induction fuel with
  | zero =>
    intro n c hc
    rw [show natDigitsAux 0 n = [] from rfl] at hc
    simp at hc
  | succ f ih =>
    intro n c hc
    unfold natDigitsAux at hc
    by_cases hn : n < 10
    · rw [if_pos hn] at hc
      simp only [List.mem_singleton] at hc
      subst hc
      exact digitChar_isDigit n
    · rw [if_neg hn] at hc
      rcases List.mem_append.mp hc with hc1 | hc2
      · exact ih (n / 10) c hc1
      · simp only [List.mem_singleton] at hc2
        subst hc2
        exact digitChar_isDigit (n % 10)

theorem natDigits_digits (n : Nat) : ∀ c ∈ natDigits n, c.isDigit = true :=
  natDigitsAux_digits (n + 1) n

theorem natDigits_ne_nil (n : Nat) : natDigits n ≠ [] := by
  have h : natDigits n =
      if n < 10 then [digitChar n]
      else natDigitsAux n (n / 10) ++ [digitChar (n % 10)] := rfl
  rw [h]
  by_cases hn : n < 10
  · simp [hn]
  · rw [if_neg hn]
    simp

theorem twoDecShape_fmt2cents (v : Nat) : twoDecShape (fmt2cents v) = true := by
  unfold twoDecShape fmt2cents
  show (match (natDigits (v / 100) ++ '.' :: pad2Chars (v % 100)).reverse with
    | b :: a :: '.' :: rest =>
      a.isDigit && b.isDigit && !rest.isEmpty && rest.all Char.isDigit
    | _ => false) = true
  have hrev : (natDigits (v / 100) ++ '.' :: pad2Chars (v % 100)).reverse =
      digitChar (v % 100) :: digitChar (v % 100 % 100 / 10) :: '.' ::
        (natDigits (v / 100)).reverse := by
    rw [show pad2Chars (v % 100) =
      [digitChar (v % 100 % 100 / 10), digitChar (v % 100)] from rfl]
    simp
  rw [hrev]
  show ((digitChar (v % 100 % 100 / 10)).isDigit && (digitChar (v % 100)).isDigit &&
      !(natDigits (v / 100)).reverse.isEmpty &&
      (natDigits (v / 100)).reverse.all Char.isDigit) = true
  simp only [digitChar_isDigit, Bool.true_and]
  rw [Bool.and_eq_true]
  constructor
  · simp [List.isEmpty_iff, List.reverse_eq_nil_iff, natDigits_ne_nil]
  · rw [List.all_eq_true]
    intro c hc
    exact natDigits_digits (v / 100) c (List.mem_reverse.mp hc)

theorem totalFieldOf_shape (lang : Lang) (lines : List String) :
    totalFieldOf lang lines = "null" ∨
      twoDecShape (totalFieldOf lang lines) = true := by
  have hT : totalFieldOf lang lines =
      (match resolveTotal (strategyA lang lines).1 (strategyB lang lines).1
          ((strategyA lang lines).2 ++ (strategyB lang lines).2) with
       | some v => if 0 < v then fmt2cents v else "null"
       | none => "null") := rfl
  cases hres : resolveTotal (strategyA lang lines).1 (strategyB lang lines).1
      ((strategyA lang lines).2 ++ (strategyB lang lines).2) with
  | none =>
    left
    rw [hT, hres]
  | some v =>
    by_cases hv : 0 < v
    · right
      rw [hT, hres]
      show twoDecShape (if 0 < v then fmt2cents v else "null") = true
      rw [if_pos hv]
      exact twoDecShape_fmt2cents v
    · left
      rw [hT, hres]
      show (if 0 < v then fmt2cents v else "null") = "null"
      rw [if_neg hv]

theorem currencyFieldOf_cases (lang : Lang) (lines : List String) :
    currencyFieldOf lang lines = "EUR" ∨ currencyFieldOf lang lines = "USD" := by
  unfold currencyFieldOf
  cases h : lines.findSome? lineCurrency with
  | none => cases lang <;> simp
  | some c =>
    obtain ⟨a, -, ha⟩ := findSome?_eq_some_mem h
    unfold lineCurrency at ha
    split at ha
    · simp only [Option.some.injEq] at ha
      exact Or.inl ha.symm
    · split at ha
      · simp only [Option.some.injEq] at ha
        exact Or.inr ha.symm
      · exact absurd ha (by simp)

/-- C4 counterexample: on a date-shaped token the normalizer cannot parse,
the date field is the raw token unchanged (here with dashes), which is
neither the sentinel, nor a canonical `dd/mm/yyyy` string, nor a
parenthesized one — the claimed date shape is violated. -/
theorem c4_counterexample :
    (extract_info ["13-13-13"] "r.png" "01/01/2024").date = "13-13-13" ∧
    specDateShape (extract_info ["13-13-13"] "r.png" "01/01/2024").date = false ∧
    (extract_info ["13-13-13"] "r.png" "01/01/2024").date ≠ "null" := by
  decide

/-- C4 (amended): for every line sequence, a non-empty filename and a
canonical current date, the record's filename is the argument; vendor and
location are the sentinel or non-empty; the total is the sentinel or a
two-decimal string; the currency is EUR, USD or the sentinel; and the date
is the sentinel, of the claimed canonical/parenthesized shape, or the raw
matched token returned unchanged when the normalizer cannot parse it. -/
theorem c4_field_shapes (lines : List String) (fn t : String)
    (hf : fn ≠ "") (ht : canonicalShape t = true) :
    c4Statement lines fn t := by
  unfold c4Statement
  cases lines with
  | nil =>
    refine ⟨rfl, hf, Or.inl rfl, Or.inl rfl, Or.inl rfl, Or.inl rfl, ?_⟩
    right
    right
    rfl
  | cons x xs =>
    rw [extract_info_cons]
    refine ⟨rfl, hf, ?_, ?_, ?_, ?_, ?_⟩
    · exact vendorOf_null_or_ne _ _
    · exact locationOf_null_or_ne _ _
    · show dateFieldOf (detect_language (x :: xs)) (x :: xs) t = "null" ∨ _
      unfold dateFieldOf
      cases hscan : scanRawDate (detect_language (x :: xs)) (x :: xs) with
      | none =>
        right
        left
        exact specDateShape_paren t ht
      | some raw =>
        rcases normalize_date_shape raw (detect_language (x :: xs)) with heq | hshape
        · right
          right
          exact ⟨raw, rfl, heq⟩
        · right
          left
          exact specDateShape_of_canonical _ hshape
    · exact totalFieldOf_shape _ _
    · rcases currencyFieldOf_cases (detect_language (x :: xs)) (x :: xs) with h | h
      · exact Or.inl h
      · exact Or.inr (Or.inl h)

/-- C4 witness: the amended invariant applied at a concrete receipt. -/
theorem c4_witness :
    (("r.png" : String) ≠ "" ∧ canonicalShape "01/01/2024" = true) ∧
    c4Statement ["ACME S.P.A", "TOTALE", "12,50"] "r.png" "01/01/2024" :=
  ⟨⟨by decide, by decide⟩,
    c4_field_shapes ["ACME S.P.A", "TOTALE", "12,50"] "r.png" "01/01/2024"
      (by decide) (by decide)⟩

/-! ### C8: normalizing an already-canonical date is the identity -/

theorem mod10_cases (n : Nat) :
    n % 10 = 0 ∨ n % 10 = 1 ∨ n % 10 = 2 ∨ n % 10 = 3 ∨ n % 10 = 4 ∨
    n % 10 = 5 ∨ n % 10 = 6 ∨ n % 10 = 7 ∨ n % 10 = 8 ∨ n % 10 = 9 := by
  omega

theorem digitChar_ne_apos (n : Nat) : digitChar n ≠ '\'' := by
  unfold digitChar
  rcases mod10_cases n with h | h | h | h | h | h | h | h | h | h <;>
    rw [h] <;> decide

theorem isSpaceChar_digitChar (n : Nat) : isSpaceChar (digitChar n) = false := by
  unfold digitChar
  rcases mod10_cases n with h | h | h | h | h | h | h | h | h | h <;>
    rw [h] <;> decide

theorem cleanNonWord_digitChar (n : Nat) :
    cleanNonWord (digitChar n) = digitChar n := by
  unfold digitChar
  rcases mod10_cases n with h | h | h | h | h | h | h | h | h | h <;>
    rw [h] <;> decide

theorem dval_digitChar (n : Nat) : dval (digitChar n) = n % 10 := by
  unfold digitChar
  rcases mod10_cases n with h | h | h | h | h | h | h | h | h | h <;>
    rw [h] <;> decide

theorem cleanNonWord_slash : cleanNonWord '/' = ' ' := by
  decide

theorem isSpaceChar_space : isSpaceChar ' ' = true := by
  decide

theorem daysInMonth_le_31 (y m : Nat) : daysInMonth y m ≤ 31 := by
  unfold daysInMonth
  split
  · split <;> omega
  · split <;> omega

theorem subAposFix_cons_ne (c : Char) (cs : List Char) (hc : c ≠ '\'') :
    subAposFix (c :: cs) = c :: subAposFix cs := by
  simp only [subAposFix]
  rw [if_neg hc]

theorem subAposFix_no_apos : ∀ (l : List Char),
    (∀ c ∈ l, c ≠ '\'') → subAposFix l = l := by
  intro l
  induction l with
  | nil => intro _; rfl
  | cons c cs ih =>
    intro h
    rw [subAposFix_cons_ne c cs (h c (by simp)),
      ih (fun x hx => h x (by simp [hx]))]

theorem replaceApos_cons_ne (c : Char) (cs : List Char) (hc : c ≠ '\'') :
    replaceApos (c :: cs) = c :: replaceApos cs := by
  simp only [replaceApos]
  rw [if_neg hc]

theorem replaceApos_no_apos : ∀ (l : List Char),
    (∀ c ∈ l, c ≠ '\'') → replaceApos l = l := by
  intro l
  induction l with
  | nil => intro _; rfl
  | cons c cs ih =>
    intro h
    rw [replaceApos_cons_ne c cs (h c (by simp)),
      ih (fun x hx => h x (by simp [hx]))]

theorem formatDMY_chars (d m y : Nat) :
    formatDMY d m y =
      [digitChar (d % 100 / 10), digitChar d, '/', digitChar (m % 100 / 10),
       digitChar m, '/', digitChar (y / 1000), digitChar (y / 100),
       digitChar (y / 10), digitChar y] :=
  rfl

theorem formatDMY_no_apos (d m y : Nat) :
    ∀ c ∈ formatDMY d m y, c ≠ '\'' := by
  intro c hc
  rw [formatDMY_chars] at hc
  simp only [List.mem_cons, List.not_mem_nil, or_false] at hc
  rcases hc with rfl | rfl | rfl | rfl | rfl | rfl | rfl | rfl | rfl | rfl
  · exact digitChar_ne_apos _
  · exact digitChar_ne_apos _
  · decide
  · exact digitChar_ne_apos _
  · exact digitChar_ne_apos _
  · decide
  · exact digitChar_ne_apos _
  · exact digitChar_ne_apos _
  · exact digitChar_ne_apos _
  · exact digitChar_ne_apos _

theorem cleanDateStr_formatDMY (d m y : Nat) :
    cleanDateStr (formatDMY d m y) =
      [digitChar (d % 100 / 10), digitChar d, ' ', digitChar (m % 100 / 10),
       digitChar m, ' ', digitChar (y / 1000), digitChar (y / 100),
       digitChar (y / 10), digitChar y] := by
  unfold cleanDateStr
  rw [subAposFix_no_apos _ (formatDMY_no_apos d m y),
    replaceApos_no_apos _ (formatDMY_no_apos d m y), formatDMY_chars]
  rw [show List.map cleanNonWord
      [digitChar (d % 100 / 10), digitChar d, '/', digitChar (m % 100 / 10),
       digitChar m, '/', digitChar (y / 1000), digitChar (y / 100),
       digitChar (y / 10), digitChar y] =
      [cleanNonWord (digitChar (d % 100 / 10)), cleanNonWord (digitChar d),
       cleanNonWord '/', cleanNonWord (digitChar (m % 100 / 10)),
       cleanNonWord (digitChar m), cleanNonWord '/',
       cleanNonWord (digitChar (y / 1000)), cleanNonWord (digitChar (y / 100)),
       cleanNonWord (digitChar (y / 10)), cleanNonWord (digitChar y)] from rfl]
  simp only [cleanNonWord_digitChar, cleanNonWord_slash]
  rw [show collapseWs
      [digitChar (d % 100 / 10), digitChar d, ' ', digitChar (m % 100 / 10),
       digitChar m, ' ', digitChar (y / 1000), digitChar (y / 100),
       digitChar (y / 10), digitChar y] =
      [digitChar (d % 100 / 10), digitChar d, ' ', digitChar (m % 100 / 10),
       digitChar m, ' ', digitChar (y / 1000), digitChar (y / 100),
       digitChar (y / 10), digitChar y] from by
    unfold collapseWs
    simp [collapseWsGo, isSpaceChar_digitChar, isSpaceChar_space]]
  unfold stripChars
  rw [List.dropWhile_cons, isSpaceChar_digitChar]
  show (List.dropWhile isSpaceChar
      [digitChar y, digitChar (y / 10), digitChar (y / 100),
       digitChar (y / 1000), ' ', digitChar m, digitChar (m % 100 / 10), ' ',
       digitChar d, digitChar (d % 100 / 10)]).reverse = _
  rw [List.dropWhile_cons, isSpaceChar_digitChar]
  rfl

theorem dayAlts_pad2 (d : Nat) (rest : List Char) (h1 : 1 ≤ d) (h2 : d ≤ 31) :
    ∃ tl, dayAlts (digitChar (d % 100 / 10) :: digitChar d :: rest) =
      (d, rest) :: tl := by
  interval_cases d <;> exact ⟨_, rfl⟩

theorem monthAlts_pad2 (m : Nat) (rest : List Char) (h1 : 1 ≤ m) (h2 : m ≤ 12) :
    ∃ tl, monthAlts (digitChar (m % 100 / 10) :: digitChar m :: rest) =
      (m, rest) :: tl := by
  interval_cases m <;> exact ⟨_, rfl⟩

theorem y4Alts_pad4 (y : Nat) (rest : List Char) :
    y4Alts (digitChar (y / 1000) :: digitChar (y / 100) :: digitChar (y / 10) ::
        digitChar y :: rest) =
      [(1000 * (y / 1000 % 10) + 100 * (y / 100 % 10) + 10 * (y / 10 % 10) +
        y % 10, rest)] := by
  simp only [y4Alts, digitChar_isDigit, Bool.and_self, if_true, dval_digitChar]

theorem span_space_cons (c : Char) (rest : List Char)
    (hc : isSpaceChar c = false) :
    List.span isSpaceChar (' ' :: c :: rest) = ([' '], c :: rest) := by
  have e2 : List.span isSpaceChar (' ' :: c :: rest) =
      (match isSpaceChar c with
       | true => List.span.loop isSpaceChar rest [c, ' ']
       | false => ([' '], c :: rest)) := rfl
  rw [e2, hc]

theorem wsAlts_single (c : Char) (rest : List Char)
    (hc : isSpaceChar c = false) :
    wsAlts (' ' :: c :: rest) = [(0, c :: rest)] := by
  unfold wsAlts
  rw [span_space_cons c rest hc]

theorem runFmt_step (t : FTok) (ts : List FTok) (cs : List Char) (acc : DMY)
    (v : Nat) (rest : List Char) (tl : List (Nat × List Char))
    (halts : tokAlts t cs = (v, rest) :: tl) (res : DMY)
    (hrec : runFmt ts rest (setTok t v acc) = some res) :
    runFmt (t :: ts) cs acc = some res := by
  have h1 : runFmt (t :: ts) cs acc =
      (tokAlts t cs).findSome? (fun p => runFmt ts p.2 (setTok t p.1 acc)) := rfl
  rw [h1, halts]
  simp only [List.findSome?_cons]
  rw [hrec]

theorem strptimeAny_of_first (cs : List Char) (x : DMY)
    (h : runFmt [FTok.D, FTok.WS, FTok.M, FTok.WS, FTok.Y4] cs ⟨1, 1, 1900⟩ =
      some x)
    (hv : validDMY x = true) : strptimeAny cs = some x := by
  unfold strptimeAny fmtList
  simp only [List.findSome?_cons]
  rw [h]
  simp [hv]

theorem strptimeAny_canonical (d m y : Nat)
    (hm1 : 1 ≤ m) (hm2 : m ≤ 12) (hd1 : 1 ≤ d) (hd2 : d ≤ daysInMonth y m)
    (hy1 : 1 ≤ y) (hy2 : y ≤ 9999) :
    strptimeAny
      [digitChar (d % 100 / 10), digitChar d, ' ', digitChar (m % 100 / 10),
       digitChar m, ' ', digitChar (y / 1000), digitChar (y / 100),
       digitChar (y / 10), digitChar y] = some ⟨d, m, y⟩ := by
  have hd31 : d ≤ 31 := le_trans hd2 (daysInMonth_le_31 y m)
  obtain ⟨tlD, hD⟩ := dayAlts_pad2 d
    (' ' :: digitChar (m % 100 / 10) :: digitChar m :: ' ' ::
      digitChar (y / 1000) :: digitChar (y / 100) :: digitChar (y / 10) ::
      digitChar y :: []) hd1 hd31
  obtain ⟨tlM, hM⟩ := monthAlts_pad2 m
    (' ' :: digitChar (y / 1000) :: digitChar (y / 100) :: digitChar (y / 10) ::
      digitChar y :: []) hm1 hm2
  have hyval : 1000 * (y / 1000 % 10) + 100 * (y / 100 % 10) +
      10 * (y / 10 % 10) + y % 10 = y := by
    omega
  have s4 : runFmt [FTok.Y4]
      (digitChar (y / 1000) :: digitChar (y / 100) :: digitChar (y / 10) ::
        digitChar y :: []) ⟨d, m, 1900⟩ = some ⟨d, m, y⟩ := by
    apply runFmt_step FTok.Y4 [] _ _
      (1000 * (y / 1000 % 10) + 100 * (y / 100 % 10) + 10 * (y / 10 % 10) + y % 10)
      [] []
    · exact y4Alts_pad4 y []
    · rw [show setTok FTok.Y4
        (1000 * (y / 1000 % 10) + 100 * (y / 100 % 10) + 10 * (y / 10 % 10) + y % 10)
        (⟨d, m, 1900⟩ : DMY) =
        ⟨d, m, 1000 * (y / 1000 % 10) + 100 * (y / 100 % 10) + 10 * (y / 10 % 10) +
          y % 10⟩ from rfl, hyval]
      rfl
  have s3 : runFmt [FTok.WS, FTok.Y4]
      (' ' :: digitChar (y / 1000) :: digitChar (y / 100) :: digitChar (y / 10) ::
        digitChar y :: []) ⟨d, m, 1900⟩ = some ⟨d, m, y⟩ := by
    apply runFmt_step FTok.WS [FTok.Y4] _ _ 0 _ []
    · exact wsAlts_single _ _ (isSpaceChar_digitChar _)
    · exact s4
  have s2 : runFmt [FTok.M, FTok.WS, FTok.Y4]
      (digitChar (m % 100 / 10) :: digitChar m :: ' ' ::
        digitChar (y / 1000) :: digitChar (y / 100) :: digitChar (y / 10) ::
        digitChar y :: []) ⟨d, 1, 1900⟩ = some ⟨d, m, y⟩ := by
    apply runFmt_step FTok.M [FTok.WS, FTok.Y4] _ _ m _ tlM
    · exact hM
    · exact s3
  have s1 : runFmt [FTok.WS, FTok.M, FTok.WS, FTok.Y4]
      (' ' :: digitChar (m % 100 / 10) :: digitChar m :: ' ' ::
        digitChar (y / 1000) :: digitChar (y / 100) :: digitChar (y / 10) ::
        digitChar y :: []) ⟨d, 1, 1900⟩ = some ⟨d, m, y⟩ := by
    apply runFmt_step FTok.WS [FTok.M, FTok.WS, FTok.Y4] _ _ 0 _ []
    · exact wsAlts_single _ _ (isSpaceChar_digitChar _)
    · exact s2
  have s0 : runFmt [FTok.D, FTok.WS, FTok.M, FTok.WS, FTok.Y4]
      [digitChar (d % 100 / 10), digitChar d, ' ', digitChar (m % 100 / 10),
       digitChar m, ' ', digitChar (y / 1000), digitChar (y / 100),
       digitChar (y / 10), digitChar y] ⟨1, 1, 1900⟩ = some ⟨d, m, y⟩ := by
    apply runFmt_step FTok.D [FTok.WS, FTok.M, FTok.WS, FTok.Y4] _ _ d _ tlD
    · exact hD
    · exact s1
  have hvalid : validDMY ⟨d, m, y⟩ = true := by
    simp only [validDMY, Bool.and_eq_true, decide_eq_true_eq]
    exact ⟨⟨⟨⟨⟨hy1, hy2⟩, hm1⟩, hm2⟩, hd1⟩, hd2⟩
  exact strptimeAny_of_first _ _ s0 hvalid

/-- C8: normalizing an already-canonical `dd/mm/yyyy` date string returns
it unchanged, for both locales. -/
theorem c8_normalize_idempotent (d m y : Nat) (lang : Lang)
    (hm1 : 1 ≤ m) (hm2 : m ≤ 12) (hd1 : 1 ≤ d) (hd2 : d ≤ daysInMonth y m)
    (hy1 : 1 ≤ y) (hy2 : y ≤ 9999) :
    normalize_date (⟨formatDMY d m y⟩ : String) lang = ⟨formatDMY d m y⟩ := by
  unfold normalize_date
  split
  · rfl
  · rw [show (⟨formatDMY d m y⟩ : String).data = formatDMY d m y from rfl,
      cleanDateStr_formatDMY,
      strptimeAny_canonical d m y hm1 hm2 hd1 hd2 hy1 hy2]

theorem c8_witness :
    1 ≤ 5 ∧ 5 ≤ 12 ∧ 1 ≤ 23 ∧ 23 ≤ daysInMonth 2023 5 ∧ 1 ≤ 2023 ∧
      2023 ≤ 9999 ∧
      normalize_date (⟨formatDMY 23 5 2023⟩ : String) Lang.IT =
        ⟨formatDMY 23 5 2023⟩ :=
  ⟨by decide, by decide, by decide, by decide, by decide, by decide,
   c8_normalize_idempotent 23 5 2023 Lang.IT (by decide) (by decide)
     (by decide) (by decide) (by decide) (by decide)⟩

end ReceiptReader




